import Mathlib

/-!
Shallow embedding of the mosdev 6502 assembler core, translated from the
repository sources:

* `src/core/codegen/segment.rs` — the `Segment` byte buffer (`Segment::set`,
  `set_current_pc`, `current_pc`),
* `src/core/codegen/mod.rs` — the expression evaluator, instruction/data
  emitters, symbol registration and the worklist fixpoint driver `codegen`,
* `src/core/io/segment_merger.rs` — `TargetSegment::overlaps_with_sources`
  and `SegmentMerger::merge`,
* `src/commands/format.rs` — the source formatter (further below).

Machine integers are modelled as `Nat` with explicit `% 2^w` wrapping where
Rust would wrap (release semantics).  Rust panics (array index out of
bounds, `unwrap()` on `None`, division by zero, unreachable `panic!` arms)
are modelled as explicit `panic` result values, since a panic aborts the
whole assembly run.
-/

namespace Cg

/-- Rust `usize` modulus. -/
def U64 : Nat := 2 ^ 64

/-- Wrapping `usize` addition (`lhs + rhs` in release mode). -/
def wrapAdd (a b : Nat) : Nat := (a + b) % U64

/-- Wrapping `usize` subtraction (`lhs - rhs` in release mode). -/
def wrapSub (a b : Nat) : Nat := (a % U64 + (U64 - b % U64)) % U64

/-- Wrapping `usize` multiplication (`lhs * rhs` in release mode). -/
def wrapMul (a b : Nat) : Nat := (a * b) % U64

/-- The value of a `usize` reinterpreted as Rust `i64` (`val as i64`). -/
def toI64 (n : Nat) : Int :=
  if n % U64 < 2 ^ 63 then ((n % U64 : Nat) : Int)
  else ((n % U64 : Nat) : Int) - (U64 : Int)

/-- Wraps an integer into the `i64` range, modelling wrapping `i64`
arithmetic. -/
def wrapI64 (x : Int) : Int := (x + 2 ^ 63) % (2 ^ 64) - 2 ^ 63

/-- The 6502 mnemonics, from the opcode table in
`src/core/codegen/mod.rs` (`emit_instruction`). -/
inductive Mnemonic
  | adc | and | asl | bcc | bcs | beq | bit | bmi | bne | bpl | brk | bvc
  | bvs | clc | cld | cli | clv | cmp | cpx | cpy | dec | dex | dey | eor
  | inc | inx | iny | jmp | jsr | lda | ldx | ldy | lsr | nop | ora | pha
  | php | pla | plp | rol | ror | rti | rts | sbc | sec | sed | sei | sta
  | stx | sty | tax | tay | tsx | txa | txs | tya
deriving DecidableEq, Repr

/-- Addressing modes, as used by the code generator. -/
inductive AddressingMode
  | absoluteOrZP | immediate | implied | indirect | outerIndirect
deriving DecidableEq, Repr

/-- Index registers. -/
inductive Register
  | x | y
deriving DecidableEq, Repr

/-- `<` (low byte) / `>` (high byte) address modifiers. -/
inductive AddressModifier
  | lowByte | highByte
deriving DecidableEq, Repr

/-- `.var` vs `.const` definitions. -/
inductive VariableType
  | var | const
deriving DecidableEq, Repr

/-- Expressions, as consumed by `CodegenContext::evaluate`.  The parser AST
for this code generator is not among the sources, so the type is modelled
from the `evaluate` match arms plus the spec's expression data model;
variants that `evaluate` would reject with `panic!("Unsupported token")`
are collapsed into `unsupported`. -/
inductive Expression
  | number (n : Nat)
  | currentProgramCounter
  | binaryAdd (lhs rhs : Expression)
  | binarySub (lhs rhs : Expression)
  | binaryMul (lhs rhs : Expression)
  | binaryDiv (lhs rhs : Expression)
  | identifierValue (id : String) (modifier : Option AddressModifier)
  | unsupported
deriving DecidableEq, Repr

/-- An instruction operand (`Token::Operand` contents). -/
structure Operand where
  addressingMode : AddressingMode
  expr : Expression
  suffix : Option Register
deriving DecidableEq, Repr

/-- An instruction: mnemonic plus optional operand. -/
structure Instruction where
  mnemonic : Mnemonic
  operand : Option Operand
deriving DecidableEq, Repr

/-- Statements processed by `emit_token`.  Statements that fall into the
`_ => Ok(None)` arm of `emit_token` are collapsed into `other`. -/
inductive Token
  | label (id : String)
  | variableDefinition (id : String) (val : Expression) (ty : VariableType)
  | instruction (i : Instruction)
  | data (exprs : List Expression) (dataLength : Nat)
  | other
deriving DecidableEq, Repr

/-- Symbol table entries (`enum Symbol`). -/
inductive Symbol
  | label (pc : Nat)
  | var (val : Nat)
  | const (val : Nat)
deriving DecidableEq, Repr

/-- `std::mem::discriminant` equality on `Symbol`. -/
def Symbol.sameVariant : Symbol → Symbol → Bool
  | .label _, .label _ => true
  | .var _, .var _ => true
  | .const _, .const _ => true
  | _, _ => false

/-- Codegen diagnostics (`enum CodegenError`), with source locations
dropped (they do not affect any claim). -/
inductive CodegenError
  | unknownIdentifier (id : String)
  | branchTooFar
  | constantReassignment (id : String)
  | symbolRedefinition (id : String)
deriving DecidableEq, Repr

/-- Whether an error is the `unknown identifier` diagnostic. -/
def CodegenError.isUnknownId : CodegenError → Bool
  | .unknownIdentifier _ => true
  | _ => false

/-- Result of read-only fallible code: a value, a recoverable
`CodegenError`, or an aborting Rust panic. -/
inductive RunResult (α : Type)
  | ok (v : α)
  | err (e : CodegenError)
  | panic (msg : String)
deriving DecidableEq, Repr

/-- The emission segment (`struct Segment` of
`src/core/codegen/segment.rs`): a 64 KiB byte buffer (modelled as a
function from addresses to byte values), the covered `Range<u16>` (as a
start/end pair) and the current program counter. -/
structure Segment where
  data : Nat → Nat
  range : Option (Nat × Nat)
  pc : Nat

/-- A fresh segment, zero-filled, positioned at the initial pc
(`Segment::new`). -/
def Segment.new (pc : Nat) : Segment :=
  { data := fun _ => 0, range := none, pc := pc }

/-- `set_current_pc`: reposition without writing. -/
def Segment.setCurrentPc (seg : Segment) (pc : Nat) : Segment :=
  { seg with pc := pc }

/-- The byte-writing loop of `Segment::set`
(`self.data[index + offset] = *byte`): Rust panics on the first index
that falls outside the 64 KiB array. -/
def writeBytes (data : Nat → Nat) (index : Nat) :
    List Nat → Except String (Nat → Nat)
  | [] => .ok data
  | b :: rest =>
    if index < 65536 then
      writeBytes (fun j => if j = index then b else data j) (index + 1) rest
    else
      .error "index out of bounds"

/-- `Segment::set` (`segment.rs` lines 91–116): initialize the range if
absent, lower its start to the pc if needed, write the bytes at
`pc..pc+len`, advance the 16-bit pc (wrapping, `self.pc.0 += length as
u16`), and raise the range end to the new pc if it grew. -/
def Segment.set (seg : Segment) (bytes : List Nat) : Except String Segment :=
  let r0 := seg.range.getD (seg.pc, seg.pc)
  let r1 := if seg.pc < r0.1 then (seg.pc, r0.2) else r0
  match writeBytes seg.data seg.pc bytes with
  | .error m => .error m
  | .ok data' =>
    let pc' := (seg.pc + bytes.length) % 65536
    let r2 := if pc' > r1.2 then (r1.1, pc') else r1
    .ok { data := data', range := some r2, pc := pc' }

/-- The codegen context: the single `Default` segment (the only segment
this version of the code generator ever creates or selects) and the
symbol table. -/
structure CodegenContext where
  seg : Segment
  symbols : String → Option Symbol

/-- `CodegenContext::new`. -/
def CodegenContext.new (pc : Nat) : CodegenContext :=
  { seg := Segment.new pc, symbols := fun _ => none }

/-- `CodegenContext::evaluate` (`mod.rs` lines 122–172).  Returns
`ok (some v)` on success, `ok none` when an identifier is unresolved and
`error_on_failure` is false, `err (unknownIdentifier id)` when it is
true, and `panic` where the Rust code would abort (`lhs / rhs` with a
zero divisor; the `_ => panic!("Unsupported token")` arm).  Arithmetic is
wrapping `usize` arithmetic. -/
def evaluate (ctx : CodegenContext) (errorOnFailure : Bool) :
    Expression → RunResult (Option Nat)
  | .number n => .ok (some n)
  | .currentProgramCounter => .ok (some ctx.seg.pc)
  | .binaryAdd lhs rhs =>
    match evaluate ctx errorOnFailure lhs with
    | .ok lv =>
      match evaluate ctx errorOnFailure rhs with
      | .ok rv =>
        match lv, rv with
        | some a, some b => .ok (some (wrapAdd a b))
        | _, _ => .ok none
      | .err e => .err e
      | .panic m => .panic m
    | .err e => .err e
    | .panic m => .panic m
  | .binarySub lhs rhs =>
    match evaluate ctx errorOnFailure lhs with
    | .ok lv =>
      match evaluate ctx errorOnFailure rhs with
      | .ok rv =>
        match lv, rv with
        | some a, some b => .ok (some (wrapSub a b))
        | _, _ => .ok none
      | .err e => .err e
      | .panic m => .panic m
    | .err e => .err e
    | .panic m => .panic m
  | .binaryMul lhs rhs =>
    match evaluate ctx errorOnFailure lhs with
    | .ok lv =>
      match evaluate ctx errorOnFailure rhs with
      | .ok rv =>
        match lv, rv with
        | some a, some b => .ok (some (wrapMul a b))
        | _, _ => .ok none
      | .err e => .err e
      | .panic m => .panic m
    | .err e => .err e
    | .panic m => .panic m
  | .binaryDiv lhs rhs =>
    match evaluate ctx errorOnFailure lhs with
    | .ok lv =>
      match evaluate ctx errorOnFailure rhs with
      | .ok rv =>
        match lv, rv with
        | some a, some b =>
          if b = 0 then .panic "attempt to divide by zero"
          else .ok (some (a / b))
        | _, _ => .ok none
      | .err e => .err e
      | .panic m => .panic m
    | .err e => .err e
    | .panic m => .panic m
  | .identifierValue id modifier =>
    match ctx.symbols id with
    | some s =>
      let val := match s with
        | .label pc => pc
        | .var v => v
        | .const v => v
      match modifier with
      | none => .ok (some val)
      | some .highByte => .ok (some ((val >>> 8) % 256))
      | some .lowByte => .ok (some (val % 256))
    | none =>
      if errorOnFailure then .err (.unknownIdentifier id)
      else .ok none
  | .unsupported => .panic "Unsupported token"

/-- Is the mnemonic one of the eight PC-relative branch instructions? -/
def isBranch : Mnemonic → Bool
  | .bcc | .bcs | .beq | .bmi | .bne | .bpl | .bvc | .bvs => true
  | _ => false

/-- `CodegenContext::evaluate_operand` (`mod.rs` lines 174–224).  For
branch mnemonics with a known operand value, computes the PC-relative
offset in `i64` arithmetic and two's-complement encodes it, failing with
`branch too far` when it falls outside `[-128, 127]`. -/
def evaluateOperand (ctx : CodegenContext) (pc : Nat) (i : Instruction)
    (errorOnFailure : Bool) :
    RunResult (AddressingMode × Option Nat × Option Register) :=
  match i.operand with
  | some operand =>
    match evaluate ctx errorOnFailure operand.expr with
    | .err e => .err e
    | .panic m => .panic m
    | .ok evaluated =>
      match evaluated with
      | some val =>
        if isBranch i.mnemonic then
          let targetPc : Int := toI64 val
          let curPc : Int := toI64 (pc + 2)
          let offset : Int := wrapI64 (targetPc - curPc)
          if -128 ≤ offset ∧ offset ≤ 127 then
            let offset := if offset < 0 then offset + 256 else offset
            .ok (operand.addressingMode, some offset.toNat, operand.suffix)
          else
            .err .branchTooFar
        else
          .ok (operand.addressingMode, some val, operand.suffix)
      | none => .ok (operand.addressingMode, none, operand.suffix)
  | none => .ok (.implied, none, none)

/-- The opcode table of `emit_instruction`: for each
`(mnemonic, addressing mode, register suffix)` the candidate
`(opcode, operand byte count)` pairs; `none` models the
`_ => panic!("Invalid instruction")` arm. -/
def possibleOpcodes :
    Mnemonic → AddressingMode → Option Register → Option (List (Nat × Nat))
  | .adc, .immediate, none => some [(0x69, 1)]
  | .adc, .indirect, some .x => some [(0x61, 1)]
  | .adc, .outerIndirect, some .y => some [(0x71, 1)]
  | .adc, .absoluteOrZP, none => some [(0x65, 1), (0x6d, 2)]
  | .adc, .absoluteOrZP, some .x => some [(0x75, 1), (0x7d, 2)]
  | .adc, .absoluteOrZP, some .y => some [(0x79, 2)]
  | .and, .absoluteOrZP, none => some [(0x25, 1), (0x2d, 2)]
  | .and, .absoluteOrZP, some .x => some [(0x35, 1), (0x3d, 2)]
  | .and, .absoluteOrZP, some .y => some [(0x39, 2)]
  | .and, .immediate, none => some [(0x29, 1)]
  | .and, .indirect, some .x => some [(0x21, 1)]
  | .and, .outerIndirect, some .y => some [(0x31, 1)]
  | .asl, .absoluteOrZP, none => some [(0x06, 1), (0x0e, 2)]
  | .asl, .absoluteOrZP, some .x => some [(0x16, 1), (0x1e, 2)]
  | .asl, .implied, none => some [(0x0a, 0)]
  | .bcc, .absoluteOrZP, none => some [(0x90, 1)]
  | .bcs, .absoluteOrZP, none => some [(0xb0, 1)]
  | .bit, .absoluteOrZP, none => some [(0x24, 1), (0x2c, 2)]
  | .bmi, .absoluteOrZP, none => some [(0x30, 1)]
  | .bne, .absoluteOrZP, none => some [(0xd0, 1)]
  | .beq, .absoluteOrZP, none => some [(0xf0, 1)]
  | .brk, .implied, none => some [(0x00, 0)]
  | .bpl, .absoluteOrZP, none => some [(0x10, 1)]
  | .bvc, .absoluteOrZP, none => some [(0x50, 1)]
  | .bvs, .absoluteOrZP, none => some [(0x70, 1)]
  | .clc, .implied, none => some [(0x18, 0)]
  | .cld, .implied, none => some [(0xd8, 0)]
  | .cli, .implied, none => some [(0x58, 0)]
  | .clv, .implied, none => some [(0xb8, 0)]
  | .cmp, .absoluteOrZP, none => some [(0xc5, 1), (0xcd, 2)]
  | .cmp, .absoluteOrZP, some .x => some [(0xd5, 1), (0xdd, 2)]
  | .cmp, .absoluteOrZP, some .y => some [(0xd9, 2)]
  | .cmp, .immediate, none => some [(0xc9, 1)]
  | .cmp, .indirect, some .x => some [(0xc1, 1)]
  | .cmp, .outerIndirect, some .y => some [(0xd1, 1)]
  | .cpx, .absoluteOrZP, none => some [(0xe4, 1), (0xec, 2)]
  | .cpx, .immediate, none => some [(0xe0, 1)]
  | .cpy, .absoluteOrZP, none => some [(0xc4, 1), (0xcc, 2)]
  | .cpy, .immediate, none => some [(0xc0, 1)]
  | .dec, .absoluteOrZP, none => some [(0xc6, 1), (0xce, 2)]
  | .dec, .absoluteOrZP, some .x => some [(0xd6, 1), (0xde, 2)]
  | .dex, .implied, none => some [(0xca, 0)]
  | .dey, .implied, none => some [(0x88, 0)]
  | .eor, .absoluteOrZP, none => some [(0x45, 1), (0x4d, 2)]
  | .eor, .absoluteOrZP, some .x => some [(0x55, 1), (0x5d, 2)]
  | .eor, .absoluteOrZP, some .y => some [(0x59, 2)]
  | .eor, .immediate, none => some [(0x49, 1)]
  | .eor, .indirect, some .x => some [(0x41, 1)]
  | .eor, .outerIndirect, some .y => some [(0x51, 1)]
  | .jmp, .absoluteOrZP, none => some [(0x4c, 2)]
  | .jmp, .outerIndirect, none => some [(0x6c, 2)]
  | .jsr, .absoluteOrZP, none => some [(0x20, 2)]
  | .inc, .absoluteOrZP, none => some [(0xe6, 1), (0xee, 2)]
  | .inc, .absoluteOrZP, some .x => some [(0xf6, 1), (0xfe, 2)]
  | .inx, .implied, none => some [(0xe8, 0)]
  | .iny, .implied, none => some [(0xc8, 0)]
  | .lda, .immediate, none => some [(0xa9, 1)]
  | .lda, .absoluteOrZP, none => some [(0xa5, 1), (0xad, 2)]
  | .lda, .absoluteOrZP, some .x => some [(0xb5, 1), (0xbd, 2)]
  | .lda, .absoluteOrZP, some .y => some [(0xb9, 2)]
  | .lda, .indirect, some .x => some [(0xa1, 1)]
  | .lda, .outerIndirect, some .y => some [(0xb1, 1)]
  | .ldx, .immediate, none => some [(0xa2, 1)]
  | .ldx, .absoluteOrZP, none => some [(0xa6, 1), (0xae, 2)]
  | .ldx, .absoluteOrZP, some .y => some [(0xb6, 1), (0xbe, 2)]
  | .ldy, .immediate, none => some [(0xa0, 1)]
  | .ldy, .absoluteOrZP, none => some [(0xa4, 1), (0xac, 2)]
  | .ldy, .absoluteOrZP, some .x => some [(0xb4, 1), (0xbc, 2)]
  | .lsr, .absoluteOrZP, none => some [(0x46, 1), (0x4e, 2)]
  | .lsr, .absoluteOrZP, some .x => some [(0x56, 1), (0x5e, 2)]
  | .lsr, .implied, none => some [(0x4a, 0)]
  | .nop, .implied, none => some [(0xea, 0)]
  | .ora, .indirect, some .x => some [(0x01, 1)]
  | .ora, .outerIndirect, some .y => some [(0x11, 1)]
  | .ora, .absoluteOrZP, none => some [(0x05, 1), (0x0d, 2)]
  | .ora, .absoluteOrZP, some .x => some [(0x15, 1), (0x1d, 2)]
  | .ora, .absoluteOrZP, some .y => some [(0x19, 2)]
  | .ora, .immediate, none => some [(0x09, 1)]
  | .pha, .implied, none => some [(0x48, 0)]
  | .php, .implied, none => some [(0x08, 0)]
  | .pla, .implied, none => some [(0x68, 0)]
  | .plp, .implied, none => some [(0x28, 0)]
  | .rti, .implied, none => some [(0x40, 0)]
  | .rol, .absoluteOrZP, none => some [(0x26, 1), (0x2e, 2)]
  | .rol, .absoluteOrZP, some .x => some [(0x36, 1), (0x3e, 2)]
  | .rol, .implied, none => some [(0x2a, 0)]
  | .ror, .absoluteOrZP, none => some [(0x66, 1), (0x6e, 2)]
  | .ror, .absoluteOrZP, some .x => some [(0x76, 1), (0x7e, 2)]
  | .ror, .implied, none => some [(0x6a, 0)]
  | .rts, .implied, none => some [(0x60, 0)]
  | .sbc, .absoluteOrZP, none => some [(0xe5, 1), (0xed, 2)]
  | .sbc, .absoluteOrZP, some .x => some [(0xf5, 1), (0xfd, 2)]
  | .sbc, .absoluteOrZP, some .y => some [(0xf9, 2)]
  | .sbc, .immediate, none => some [(0xe9, 1)]
  | .sbc, .indirect, some .x => some [(0xe1, 1)]
  | .sbc, .outerIndirect, some .y => some [(0xf1, 1)]
  | .sec, .implied, none => some [(0x38, 0)]
  | .sed, .implied, none => some [(0xf8, 0)]
  | .sei, .implied, none => some [(0x78, 0)]
  | .sta, .absoluteOrZP, none => some [(0x85, 1), (0x8d, 2)]
  | .sta, .absoluteOrZP, some .x => some [(0x95, 1), (0x9d, 2)]
  | .sta, .absoluteOrZP, some .y => some [(0x99, 2)]
  | .sta, .indirect, some .x => some [(0x81, 1)]
  | .sta, .outerIndirect, some .y => some [(0x91, 1)]
  | .stx, .absoluteOrZP, none => some [(0x86, 1), (0x8e, 2)]
  | .stx, .absoluteOrZP, some .y => some [(0x96, 1)]
  | .sty, .absoluteOrZP, none => some [(0x84, 1), (0x8c, 2)]
  | .sty, .absoluteOrZP, some .x => some [(0x94, 1)]
  | .tax, .implied, none => some [(0xaa, 0)]
  | .tay, .implied, none => some [(0xa8, 0)]
  | .tsx, .implied, none => some [(0xba, 0)]
  | .txa, .implied, none => some [(0x8a, 0)]
  | .tya, .implied, none => some [(0x98, 0)]
  | .txs, .implied, none => some [(0x9a, 0)]
  | _, _, _ => none

/-- The opcode-selection loop of `emit_instruction` for a known operand
value: the first candidate with a 1-byte operand and `val < 256`, or the
first candidate with a 2-byte operand, wins (`break`). -/
def pickOpcode (val : Nat) : List (Nat × Nat) → Option (List Nat)
  | [] => none
  | (opcode, operandLength) :: rest =>
    if operandLength = 1 ∧ val < 256 then
      some [opcode, val % 256]
    else if operandLength = 2 then
      some [opcode, (val % 65536) % 256, (val % 65536) / 256]
    else
      pickOpcode val rest

/-- The fold underlying `iter().max_by(...)`: like Rust's `max_by`, a
later candidate replaces the accumulator when its operand byte count is
greater than or equal (so the last of several maximal elements wins). -/
def maxByLenAux (acc : Option (Nat × Nat)) :
    List (Nat × Nat) → Option (Nat × Nat)
  | [] => acc
  | c :: rest =>
    maxByLenAux
      (match acc with
       | none => some c
       | some m => if m.2 ≤ c.2 then some c else some m)
      rest

/-- `iter().max_by(...)` over the candidate list, comparing operand byte
counts; `none` on an empty list (where the `.unwrap()` would panic). -/
def maxByLen (cands : List (Nat × Nat)) : Option (Nat × Nat) :=
  maxByLenAux none cands

/-- The `None => (true, smallvec![possible_opcodes[0].0])` arm of
`emit_instruction` for an operand-less instruction: the first
candidate's opcode alone; `none` models the index panic on an empty
candidate list. -/
def headOpcode : List (Nat × Nat) → Option (Bool × List Nat)
  | [] => none
  | (opcode, _) :: _ => some (true, [opcode])

/-- The `(expression_is_valid, bytes)` selection of `emit_instruction`
(`mod.rs` lines 364–397): with an operand and a known value, the first
fitting candidate; with an operand but no value yet, placeholder zeroes
of the largest candidate (`expression_is_valid = false`); without an
operand, the first candidate's opcode.  `none` models the respective
panics. -/
def pickBytes (operand? : Option Operand) (val : Option Nat)
    (cands : List (Nat × Nat)) : Option (Bool × List Nat) :=
  match operand? with
  | some _ =>
    match val with
    | some v =>
      match pickOpcode v cands with
      | some bytes => some (true, bytes)
      | none => none
    | none =>
      match maxByLen cands with
      | none => none
      | some (opcode, len) =>
        match len with
        | 1 => some (false, [opcode, 0])
        | 2 => some (false, [opcode, 0, 0])
        | _ => none
  | none => headOpcode cands

/-- Result of a state-mutating emission step: `ok` with the updated
context and an optional retry pc, a recoverable error together with the
context as mutated up to the failure point, or an aborting panic. -/
inductive Step
  | ok (ctx : CodegenContext) (requeue : Option Nat)
  | err (ctx : CodegenContext) (e : CodegenError)
  | panic (msg : String)

/-- `CodegenContext::emit_instruction` (`mod.rs` lines 226–408):
reposition the segment if a retry pc is given, evaluate the operand,
select an opcode (placeholder zeroes of the largest candidate when the
operand is still unknown), write the bytes, and report whether the
statement must be retried at this pc. -/
def emitInstruction (ctx : CodegenContext) (pc? : Option Nat)
    (i : Instruction) (errorOnFailure : Bool) : Step :=
  let ctx :=
    match pc? with
    | some pc => { ctx with seg := ctx.seg.setCurrentPc pc }
    | none => ctx
  let pc := ctx.seg.pc
  match evaluateOperand ctx pc i errorOnFailure with
  | .err e => .err ctx e
  | .panic m => .panic m
  | .ok (am, val, suffix) =>
    match possibleOpcodes i.mnemonic am suffix with
    | none => .panic "Invalid instruction"
    | some cands =>
      match pickBytes i.operand val cands with
      | none => .panic "Could not determine correct opcode"
      | some (valid, bytes) =>
        match ctx.seg.set bytes with
        | .error m => .panic m
        | .ok seg' =>
          let ctx := { ctx with seg := seg' }
          if valid then .ok ctx none else .ok ctx (some pc)

/-- The little-endian truncating encoding of a data value
(`(val as u8)`, `(val as u16).to_le_bytes()`, `(val as u32).to_le_bytes()`
in `emit_data`); `none` models the `_ => panic!()` arm for an unsupported
data length.  The zero placeholder written for an unresolved expression
equals `dataBytes dataLength 0`. -/
def dataBytes (dataLength : Nat) (val : Nat) : Option (List Nat) :=
  match dataLength with
  | 1 => some [val % 256]
  | 2 => some [(val % 65536) % 256, (val % 65536) / 256]
  | 4 => some [val % 256, val / 256 % 256,
               val / 65536 % 256, val / 16777216 % 256]
  | _ => none

/-- One iteration of the `for expr in exprs` loop of `emit_data`. -/
def emitDataExprs (flag : Bool) (dataLength : Nat) (ctx : CodegenContext)
    (exprs : List Expression) (anyFailed : Bool) : Step :=
  match exprs with
  | [] => .ok ctx (if anyFailed then some ctx.seg.pc else none)
  | expr :: rest =>
    match evaluate ctx flag expr with
    | .err e => .err ctx e
    | .panic m => .panic m
    | .ok evaluated =>
      match evaluated with
      | some val =>
        match dataBytes dataLength val with
        | none => .panic "unsupported data length"
        | some bytes =>
          match ctx.seg.set bytes with
          | .error m => .panic m
          | .ok seg' => emitDataExprs flag dataLength
              { ctx with seg := seg' } rest anyFailed
      | none =>
        match dataBytes dataLength 0 with
        | none => .panic "unsupported data length"
        | some bytes =>
          match ctx.seg.set bytes with
          | .error m => .panic m
          | .ok seg' => emitDataExprs flag dataLength
              { ctx with seg := seg' } rest true

/-- `CodegenContext::emit_data` (`mod.rs` lines 410–459): remember the
emission pc, reposition the segment there, then emit every expression
(placeholder zeroes for unresolved ones), retrying at the same pc if any
failed.  The returned retry pc is the remembered emission pc. -/
def emitData (ctx : CodegenContext) (pc? : Option Nat)
    (exprs : List Expression) (dataLength : Nat) (flag : Bool) : Step :=
  let pc := pc?.getD ctx.seg.pc
  let ctx := { ctx with seg := ctx.seg.setCurrentPc pc }
  match emitDataExprs flag dataLength ctx exprs false with
  | .ok ctx' anyFailed? =>
    .ok ctx' (match anyFailed? with
      | some _ => some pc
      | none => none)
  | .err c e => .err c e
  | .panic m => .panic m

/-- `CodegenContext::register_symbol` (`mod.rs` lines 461–480): fails
with `symbol redefinition` when an existing entry has a different
variant, otherwise inserts or replaces. -/
def registerSymbol (ctx : CodegenContext) (id : String) (value : Symbol) :
    Except CodegenError CodegenContext :=
  match ctx.symbols id with
  | some existing =>
    if existing.sameVariant value then
      .ok { ctx with symbols := fun k => if k = id then some value else ctx.symbols k }
    else
      .error (.symbolRedefinition id)
  | none =>
    .ok { ctx with symbols := fun k => if k = id then some value else ctx.symbols k }

/-- `CodegenContext::emit_token` (`mod.rs` lines 482–526).  Note the
`.unwrap()` on the evaluation result of a variable/constant definition:
if the right-hand side is still unresolved (evaluation returned no
value), the Rust code panics. -/
def emitToken (ctx : CodegenContext) (pc? : Option Nat) (token : Token)
    (errorOnFailure : Bool) : Step :=
  match token with
  | .label id =>
    let pc := pc?.getD ctx.seg.pc
    match registerSymbol ctx id (.label pc) with
    | .ok ctx' => .ok ctx' none
    | .error e => .err ctx e
  | .variableDefinition id val ty =>
    match ctx.symbols id, ty with
    | some (.const _), .const => .err ctx (.constantReassignment id)
    | _, _ =>
      match evaluate ctx errorOnFailure val with
      | .err e => .err ctx e
      | .panic m => .panic m
      | .ok evaluated =>
        match evaluated with
        | none => .panic "called Option unwrap on a None value"
        | some eval =>
          let sym := match ty with
            | .var => Symbol.var eval
            | .const => Symbol.const eval
          match registerSymbol ctx id sym with
          | .ok ctx' => .ok ctx' none
          | .error e => .err ctx e
  | .instruction i => emitInstruction ctx pc? i errorOnFailure
  | .data exprs dataLength => emitData ctx pc? exprs dataLength errorOnFailure
  | .other => .ok ctx none

/-- A worklist entry: the optional retry pc and the statement. -/
abbrev WorkItem := Option Nat × Token

/-- One pass of the fixpoint loop of `codegen` (`mod.rs` lines 551–573):
process every worklist entry in order, re-queueing entries that returned
a retry pc and collecting recoverable errors; a Rust panic aborts the
whole run. -/
def runPass (ctx : CodegenContext) (items : List WorkItem)
    (errorOnFailure : Bool) :
    Except String (CodegenContext × List WorkItem × List CodegenError) :=
  match items with
  | [] => .ok (ctx, [], [])
  | (pc?, tok) :: rest =>
    match emitToken ctx pc? tok errorOnFailure with
    | .panic m => .error m
    | .ok ctx' requeue =>
      match runPass ctx' rest errorOnFailure with
      | .error m => .error m
      | .ok (c, next, errs) =>
        match requeue with
        | some pc => .ok (c, (some pc, tok) :: next, errs)
        | none => .ok (c, next, errs)
    | .err ctx' e =>
      match runPass ctx' rest errorOnFailure with
      | .error m => .error m
      | .ok (c, next, errs) => .ok (c, next, e :: errs)

/-- The `while !to_process.is_empty()` fixpoint loop of `codegen`,
written with explicit fuel (each unit of fuel allows one pass; the
termination theorem for claim C5 shows the fuel used by `codegen` is
never exhausted).  When a full pass resolves nothing
(`next.length = items.length`), `error_on_failure` is latched to true. -/
def codegenLoop : Nat → CodegenContext → List WorkItem → Bool →
    List CodegenError →
    Option (Except String (CodegenContext × List CodegenError))
  | 0, _, _, _, _ => none
  | fuel + 1, ctx, items, errorOnFailure, errs =>
    if items = [] then
      some (.ok (ctx, errs))
    else
      match runPass ctx items errorOnFailure with
      | .error m => some (.error m)
      | .ok (ctx', next, newErrs) =>
        codegenLoop fuel ctx' next
          (errorOnFailure || next.length = items.length) (errs ++ newErrs)

/-- `codegen` (`mod.rs` lines 529–580): seed the worklist with
`(pc = none, statement)` for every statement, run passes to the
fixpoint starting with `error_on_failure = false`, and return the
context if no errors accumulated, the error list otherwise.  The outer
`Option` is the fuel reserve (never exhausted, see claim C5); the
`Except String` layer is a Rust panic. -/
def codegen (ast : List Token) (pc : Nat) :
    Option (Except String (Except (List CodegenError) CodegenContext)) :=
  let ctx := CodegenContext.new pc
  let items : List WorkItem := ast.map (fun t => (none, t))
  match codegenLoop (2 * items.length + 2) ctx items false [] with
  | none => none
  | some (.error m) => some (.error m)
  | some (.ok (ctx, errs)) =>
    if errs = [] then some (.ok (.ok ctx))
    else some (.ok (.error errs))

/-- Projection: the retry pc of an `ok` step. -/
def Step.requeueOf : Step → Option (Option Nat)
  | .ok _ r => some r
  | _ => none

/-- Projection: the error of an `err` step. -/
def Step.errOf : Step → Option CodegenError
  | .err _ e => some e
  | _ => none

/-- Projection: the panic message of a `panic` step. -/
def Step.panicOf : Step → Option String
  | .panic m => some m
  | _ => none

/-- Projection: the segment pc of the context carried by a step. -/
def Step.pcOf : Step → Option Nat
  | .ok c _ => some c.seg.pc
  | .err c _ => some c.seg.pc
  | .panic _ => none

/-- Projection: the byte at `addr` in the context carried by a step. -/
def Step.dataAt (s : Step) (addr : Nat) : Option Nat :=
  match s with
  | .ok c _ => some (c.seg.data addr)
  | .err c _ => some (c.seg.data addr)
  | .panic _ => none

/-- Projection: the symbol stored under `id` in the context carried by a
step (`none` for a panic). -/
def Step.symbolOf (s : Step) (id : String) : Option (Option Symbol) :=
  match s with
  | .ok c _ => some (c.symbols id)
  | .err c _ => some (c.symbols id)
  | .panic _ => none

/-- Projection: the panic message of a whole `codegen` run. -/
def resultPanic :
    Option (Except String (Except (List CodegenError) CodegenContext)) →
    Option String
  | some (.error m) => some m
  | _ => none

/-- Projection: the accumulated diagnostics of a failed `codegen` run. -/
def resultErrors :
    Option (Except String (Except (List CodegenError) CodegenContext)) →
    Option (List CodegenError)
  | some (.ok (.error errs)) => some errs
  | _ => none

/-- Projection: the byte at `addr` after a successful `codegen` run. -/
def resultDataAt
    (r : Option (Except String (Except (List CodegenError) CodegenContext)))
    (addr : Nat) : Option Nat :=
  match r with
  | some (.ok (.ok ctx)) => some (ctx.seg.data addr)
  | _ => none

/-- Projection: the final segment pc after a successful `codegen` run. -/
def resultPc :
    Option (Except String (Except (List CodegenError) CodegenContext)) →
    Option Nat
  | some (.ok (.ok ctx)) => some ctx.seg.pc
  | _ => none

end Cg

namespace Mg

/-!
Embedding of `src/core/io/segment_merger.rs`.  The `Segment` type this
file consumes is a newer revision than the one under `src/`; only its
accessors `range()`, `range_data()` and `target_range()` are used here.
`range` and the backing data are modelled directly; `target_range` is
modelled from the spec (§4.7): "merge(name, seg) copies seg.range_data()
into the target at seg.range", i.e. the target range of a segment is its
covered range.
-/

/-- A source segment as seen by the merger: its covered range and its
64 KiB data buffer. -/
structure MSegment where
  range : Option (Nat × Nat)
  data : Nat → Nat

/-- Modelled from the spec: `Segment::target_range` is not among the
sources; per §4.7 the copy destination in the target is the segment's
own covered range. -/
def MSegment.targetRange (s : MSegment) : Option (Nat × Nat) := s.range

/-- A build error pushed by `SegmentMerger::merge`
(`MosError::BuildError`), modelled structurally: the formatted message
names the target, the new segment with its range, and every overlapping
previously-merged segment with its range. -/
structure BuildError where
  target : String
  segName : String
  segRange : Nat × Nat
  overlaps : List (String × (Nat × Nat))
deriving DecidableEq, Repr

/-- `struct TargetSegment`: the composed data, its valid range, and the
source segments merged into it (the `HashMap` is modelled as an
association list; its iteration order is unspecified in Rust). -/
structure TargetSegment where
  data : Nat → Nat
  range : Option (Nat × Nat)
  sources : List (String × MSegment)

/-- The empty target created by `Entry::Vacant`. -/
def TargetSegment.empty : TargetSegment :=
  { data := fun _ => 0, range := none, sources := [] }

/-- `TargetSegment::overlaps_with_sources` (lines 61–78): keep every
source segment whose range `[sr.start, sr.end)` contains the new
range's start, or whose range (shifted by one) contains the new range's
end.  A source with no range is unreachable (`merge` only inserts
segments that have one); the `unwrap` is modelled as non-matching. -/
def TargetSegment.overlapsWithSources (t : TargetSegment)
    (newRange : Nat × Nat) : List (String × MSegment) :=
  t.sources.filter fun p =>
    match p.2.range with
    | some sr =>
      (newRange.1 ≥ sr.1 ∧ newRange.1 < sr.2) ∨
        (newRange.2 > sr.1 ∧ newRange.2 ≤ sr.2)
    | none => False

/-- `TargetSegment::merge` (lines 35–58): record the source, copy the
segment's data over the target range, and widen the target's range.
`tr` is the (already unwrapped) target range of the segment. -/
def TargetSegment.mergeSeg (t : TargetSegment) (name : String)
    (seg : MSegment) (tr : Nat × Nat) : TargetSegment :=
  { data := fun j => if tr.1 ≤ j ∧ j < tr.2 then seg.data j else t.data j
    range :=
      match t.range with
      | some br => some (min br.1 tr.1, max br.2 tr.2)
      | none => some tr
    sources := (name, seg) :: t.sources.filter (fun p => p.1 ≠ name) }

/-- `struct SegmentMerger`: targets by output path, the default target,
and the accumulated build errors. -/
structure SegmentMerger where
  targets : List (String × TargetSegment)
  defaultTarget : String
  errors : List BuildError

/-- `SegmentMerger::new`. -/
def SegmentMerger.new (defaultTarget : String) : SegmentMerger :=
  { targets := [], defaultTarget := defaultTarget, errors := [] }

/-- Association-list lookup, modelling `HashMap::entry` lookup. -/
def assocFind (l : List (String × TargetSegment)) (k : String) :
    Option TargetSegment :=
  (l.find? (fun p => p.1 = k)).map (fun p => p.2)

/-- Association-list insert-or-replace, modelling `HashMap` update. -/
def assocPut (l : List (String × TargetSegment)) (k : String)
    (v : TargetSegment) : List (String × TargetSegment) :=
  (k, v) :: l.filter (fun p => p.1 ≠ k)

/-- `SegmentMerger::merge` (lines 114–149): skip segments without a
target range; otherwise fetch (or create) the default target, push a
`BuildError` naming the new segment, its range, and every overlapping
previously-merged segment with its range when the overlap list is
non-empty, and merge the segment into the target regardless. -/
def SegmentMerger.merge (m : SegmentMerger) (segmentName : String)
    (segment : MSegment) : SegmentMerger :=
  match segment.targetRange with
  | none => m
  | some segRange =>
    let targetName := m.defaultTarget
    let target := (assocFind m.targets targetName).getD TargetSegment.empty
    let overlaps := target.overlapsWithSources segRange
    let errors :=
      if overlaps.isEmpty then m.errors
      else
        m.errors ++
          [{ target := targetName
             segName := segmentName
             segRange := segRange
             overlaps := overlaps.map fun p =>
               (p.1, (p.2.range).getD (0, 0)) }]
    let target := target.mergeSeg segmentName segment segRange
    { m with
      targets := assocPut m.targets targetName target
      errors := errors }

/-- Non-empty intersection of two half-open ranges. -/
def rangesIntersect (r1 r2 : Nat × Nat) : Prop :=
  max r1.1 r2.1 < min r1.2 r2.2

instance (r1 r2 : Nat × Nat) : Decidable (rangesIntersect r1 r2) := by
  unfold rangesIntersect
  infer_instance

end Mg

namespace Cg

/-- The single opcode of each branch mnemonic (its row in the opcode
table); `0` for non-branch mnemonics. -/
def branchOpcode : Mnemonic → Nat
  | .bcc => 0x90
  | .bcs => 0xb0
  | .beq => 0xf0
  | .bmi => 0x30
  | .bne => 0xd0
  | .bpl => 0x10
  | .bvc => 0x50
  | .bvs => 0x70
  | _ => 0

/-- A fixpoint run that never stalls: starting from this context and
worklist with `error_on_failure = false`, every pass either aborts or
strictly shrinks the worklist until it is empty.  This captures the
situation of claim C4 in which every forward reference eventually
resolves. -/
inductive NoStall : CodegenContext → List WorkItem → Prop
  | nil (ctx : CodegenContext) : NoStall ctx []
  | fail (ctx : CodegenContext) (items : List WorkItem) (m : String)
      (h : runPass ctx items false = .error m) : NoStall ctx items
  | step (ctx : CodegenContext) (items : List WorkItem)
      (c : CodegenContext) (next : List WorkItem) (errs : List CodegenError)
      (h : runPass ctx items false = .ok (c, next, errs))
      (hlt : next.length < items.length)
      (hns : NoStall c next) : NoStall ctx items

end Cg

namespace Fm

/-! ## The source formatter (`src/commands/format.rs`)

The formatter in `src/commands/format.rs` compiles against a parser AST
(a `Token` enum with `Eof`/`EolTrivia` variants, a trivia-carrying
`Located` and a `Trivia` enum) whose defining module is not among the
sources (`src/core/parser/ast.rs` contains an older, incompatible AST,
and the `mnemonic` module of the parser is absent altogether).  The
formatter functions below are translated from `format.rs` itself; the
AST types they consume are modelled from the spec (§2) and from the
parser combinators that are present in `src/core/parser/mod.rs`
(`trivia_impl`, `multiline_trivia`, `instruction`, `eof`), restricted to
the statement forms exercised by the theorems: instructions (with or
without an operand) and end-of-line / end-of-file trivia tokens. -/

/-- Trivia items.  Modelled from the spec (§2 "Trivia") and
`trivia_impl`/`multiline_trivia` (`parser/mod.rs` lines 146–176): runs
of horizontal whitespace, block and line comments (stored with their
source text), and newlines.  A `\r\n` line ending is parsed by
`opt(char('\r')), char('\n')` into the bare `NewLine` item, so the
carriage return is not stored. -/
inductive Trivia
  | whitespace (s : String)
  | cStyle (s : String)
  | cppStyle (s : String)
  | newLine
deriving DecidableEq, Repr

/-- Reserialization of one trivia item (spec-modelled: trivia prints as
its stored source text; `NewLine` prints as a bare line feed, the
carriage return having been discarded at parse time). -/
def Trivia.display : Trivia → String
  | .whitespace s => s
  | .cStyle s => s
  | .cppStyle s => s
  | .newLine => "\n"

/-- A node with its optional leading trivia (spec-modelled from §2:
"Every tree node optionally carries a leading trivia list"; source spans
are omitted, the formatter never reads them). -/
structure Located (α : Type) where
  trivia : Option (List Trivia)
  data : α
deriving DecidableEq, Repr

/-- Rust `str::to_uppercase`, character by character (the source text is
ASCII). -/
def strToUpper (s : String) : String :=
  ⟨s.toList.map Char.toUpper⟩

/-- Rust `str::to_lowercase`, character by character. -/
def strToLower (s : String) : String :=
  ⟨s.toList.map Char.toLower⟩

/-- `enum Casing` (`format.rs` lines 21–24). -/
inductive Casing
  | uppercase
  | lowercase
deriving DecidableEq, Repr

/-- `Casing::format` (`format.rs` lines 27–32). -/
def Casing.format : Casing → String → String
  | .uppercase, s => strToUpper s
  | .lowercase, s => strToLower s

/-- `struct MnemonicOptions` (`format.rs` lines 37–41). -/
structure MnemonicOptions where
  onePerLine : Bool
  casing : Casing
  registerCasing : Casing
deriving DecidableEq, Repr

/-- `enum BracePosition` (`format.rs` lines 55–59). -/
inductive BracePosition
  | sameLine
  | newLine
  | asIs
deriving DecidableEq, Repr

/-- `struct BraceOptions` (`format.rs` lines 63–66). -/
structure BraceOptions where
  position : BracePosition
  doubleNewlineAfterClosingBrace : Bool
deriving DecidableEq, Repr

/-- `struct WhitespaceOptions` (`format.rs` lines 79–90). -/
structure WhitespaceOptions where
  trim : Bool
  indent : Nat
  spaceBetweenKvp : Bool
  spaceBetweenExpressionFactors : Bool
  spaceBeforeEndOfLineComments : Bool
  collapseMultipleEmptyLines : Bool
  newlineBeforeIf : Bool
  newlineBeforeVariables : Bool
  newlineBeforePc : Bool
  newlineBeforeLabel : Bool
deriving DecidableEq, Repr

/-- `struct FormattingOptions` (`format.rs` lines 111–115). -/
structure FormattingOptions where
  mnemonics : MnemonicOptions
  braces : BraceOptions
  whitespace : WhitespaceOptions
deriving DecidableEq, Repr

/-- `FormattingOptions::passthrough` (`format.rs` lines 118–142): "trivia
preserved, no reformatting" — note that the mnemonic and register casing
are nevertheless `Lowercase`. -/
def FormattingOptions.passthrough : FormattingOptions :=
  { mnemonics :=
      { onePerLine := false
        casing := .lowercase
        registerCasing := .lowercase }
    braces :=
      { position := .asIs
        doubleNewlineAfterClosingBrace := false }
    whitespace :=
      { trim := false
        indent := 0
        spaceBetweenKvp := false
        spaceBetweenExpressionFactors := false
        spaceBeforeEndOfLineComments := false
        collapseMultipleEmptyLines := false
        newlineBeforeIf := false
        newlineBeforeVariables := false
        newlineBeforePc := false
        newlineBeforeLabel := false } }

/-- Expression factors of the modelled fragment (numbers with their
radix tag text, and identifier values with an optional `<`/`>` modifier
text), shaped after the `ExpressionFactor::Number` and
`ExpressionFactor::IdentifierValue` arms of `format_expression_factor`
(`format.rs` lines 743–752). -/
inductive Factor
  | number (ty : Located String) (value : Located String)
  | identifierValue (path : Located String) (modifier : Option String)
deriving DecidableEq, Repr

/-- Expressions of the modelled fragment: a single factor with optional
`!` / `-` prefix texts, shaped after the `Expression::Factor` arm of
`format_expression` (`format.rs` lines 696–710). -/
structure Expr where
  tagNot : Option String
  tagNeg : Option String
  factor : Located Factor
deriving DecidableEq, Repr

/-- A register suffix: the comma text and the register, shaped after the
suffix handling in the `Token::Instruction` arm (`format.rs` lines
482–495). -/
structure Suffix where
  comma : Located String
  register : Located Cg.Register
deriving DecidableEq, Repr

/-- An instruction operand, shaped after the operand handling in the
`Token::Instruction` arm (`format.rs` lines 472–514). -/
structure Operand where
  addressingMode : Cg.AddressingMode
  lchar : Option (Located String)
  rchar : Option (Located String)
  expr : Located Expr
  suffix : Option Suffix
deriving DecidableEq, Repr

/-- An instruction node: mnemonic with trivia plus optional operand. -/
structure Instr where
  mnemonic : Located Cg.Mnemonic
  operand : Option Operand
deriving DecidableEq, Repr

/-- The token fragment consumed by the theorems: instructions and the
end-of-line / end-of-file trivia tokens (`Token::Instruction`,
`Token::EolTrivia`, `Token::Eof` of the AST used by `format.rs`).  The
remaining statement forms (labels, braces, data, …) do not occur in the
straight-line instruction programs considered here. -/
inductive Token
  | instruction (i : Instr)
  | eolTrivia (eol : Located Unit)
  | eof (eol : Located Unit)
deriving DecidableEq, Repr

/-- The `Display` of the parser's mnemonic type: the uppercase opcode
name (`ast.rs` lines 200–205, corroborated by the parser tests, e.g.
`check("lda #123", "LDA #123")`). -/
def mnemonicDisplay : Cg.Mnemonic → String
  | .adc => "ADC" | .and => "AND" | .asl => "ASL" | .bcc => "BCC"
  | .bcs => "BCS" | .beq => "BEQ" | .bit => "BIT" | .bmi => "BMI"
  | .bne => "BNE" | .bpl => "BPL" | .brk => "BRK" | .bvc => "BVC"
  | .bvs => "BVS" | .clc => "CLC" | .cld => "CLD" | .cli => "CLI"
  | .clv => "CLV" | .cmp => "CMP" | .cpx => "CPX" | .cpy => "CPY"
  | .dec => "DEC" | .dex => "DEX" | .dey => "DEY" | .eor => "EOR"
  | .inc => "INC" | .inx => "INX" | .iny => "INY" | .jmp => "JMP"
  | .jsr => "JSR" | .lda => "LDA" | .ldx => "LDX" | .ldy => "LDY"
  | .lsr => "LSR" | .nop => "NOP" | .ora => "ORA" | .pha => "PHA"
  | .php => "PHP" | .pla => "PLA" | .plp => "PLP" | .rol => "ROL"
  | .ror => "ROR" | .rti => "RTI" | .rts => "RTS" | .sbc => "SBC"
  | .sec => "SEC" | .sed => "SED" | .sei => "SEI" | .sta => "STA"
  | .stx => "STX" | .sty => "STY" | .tax => "TAX" | .tay => "TAY"
  | .tsx => "TSX" | .txa => "TXA" | .txs => "TXS" | .tya => "TYA"

/-- The register's display text (spec-modelled; the register casing
option of the formatter rewrites its case anyway). -/
def registerDisplay : Cg.Register → String
  | .x => "x"
  | .y => "y"

/-- Rust `str::trim_start` (Unicode whitespace from the left). -/
def trimStart (s : String) : String :=
  ⟨s.toList.dropWhile Char.isWhitespace⟩

/-- Rust `str::trim_end`. -/
def trimEnd (s : String) : String :=
  ⟨(s.toList.reverse.dropWhile Char.isWhitespace).reverse⟩

/-- Rust `str::trim`. -/
def rustTrim (s : String) : String :=
  trimStart (trimEnd s)

/-- Rust `line.trim_end_matches('\n')` as used by
`preceding_newline_len` (`format.rs` line 837). -/
def trimEndNewlines (s : String) : String :=
  ⟨(s.toList.reverse.dropWhile (fun c => c == '\n')).reverse⟩

/-- Splitting a character list on line feeds (the separator handling of
Rust `str::lines`). -/
def splitNlAux : List Char → List Char → List String
  | [], acc => [⟨acc.reverse⟩]
  | c :: rest, acc =>
    if c == '\n' then (⟨acc.reverse⟩ : String) :: splitNlAux rest []
    else splitNlAux rest (c :: acc)

/-- Rust `str::lines`: split on `'\n'`, strip one trailing `'\r'` per
line, and drop the final empty piece produced by a trailing newline. -/
def rustLines (s : String) : List String :=
  let parts := (splitNlAux s.toList []).map (fun l =>
    match l.toList.reverse with
    | '\r' :: rest => (⟨rest.reverse⟩ : String)
    | _ => l)
  match parts.reverse with
  | "" :: rest => rest.reverse
  | _ => parts

/-- The loop body of `preceding_newline_len` (`format.rs` lines
834–847), running over the reversed line list: count the trailing
line-feed characters of each string from the back, stopping at the first
string that does not consist entirely of line feeds. -/
def precedingNewlineLenAux : List String → Nat
  | [] => 0
  | line :: rest =>
    let endings := line.length - (trimEndNewlines line).length
    if line.length = endings then endings + precedingNewlineLenAux rest
    else endings

/-- `preceding_newline_len` (`format.rs` lines 834–847). -/
def precedingNewlineLen (lines : List String) : Nat :=
  precedingNewlineLenAux lines.reverse

/-- `generate_indent_prefix` (`format.rs` lines 849–855). -/
def generateIndentPrefix (indent : Nat) : String :=
  ⟨List.replicate indent ' '⟩

/-- The per-line body of `indent_str` (`format.rs` lines 869–885). -/
def indentLine (indent : Nat) (line : String) : String :=
  if (rustTrim line).isEmpty then line
  else
    let trimmedLine : String := ⟨line.toList.dropWhile (fun c => c == ' ')⟩
    let curIndent := line.length - trimmedLine.length
    if curIndent < indent then generateIndentPrefix indent ++ trimmedLine
    else line

/-- `indent_str` (`format.rs` lines 858–895). -/
def indentStr (input : List (Nat × String)) : String :=
  String.join (input.map (fun p =>
    let endingNewline := 0 < precedingNewlineLen [p.2]
    let indented :=
      String.intercalate "\n" ((rustLines p.2).map (indentLine p.1))
    if endingNewline then indented ++ "\n" else indented))

/-- Rust `str::starts_with(' ')`. -/
def startsWithSpace (s : String) : Bool :=
  match s.toList with
  | c :: _ => c == ' '
  | [] => false

/-- `space_prefix` (`format.rs` lines 767–774). -/
def spacePrefix (val : String) : String :=
  if ¬(rustTrim val).isEmpty ∧ ¬(startsWithSpace val = true) then
    " " ++ rustTrim val
  else val

/-- `space_prefix_if` (`format.rs` lines 776–783). -/
def spacePrefixIf (val : String) (condition : Bool) : String :=
  if condition then spacePrefix val else val

/-- The trimming fold of `format_trivia` (`format.rs` lines 626–653),
with its `last_trivia_was_space` accumulator (initially true). -/
def formatTriviaTrimAux : Bool → List Trivia → String
  | _, [] => ""
  | lastSpace, .whitespace _ :: rest =>
    if lastSpace then formatTriviaTrimAux true rest
    else " " ++ formatTriviaTrimAux true rest
  | lastSpace, .newLine :: rest => formatTriviaTrimAux lastSpace rest
  | lastSpace, item :: rest =>
    if lastSpace then item.display ++ formatTriviaTrimAux false rest
    else " " ++ item.display ++ formatTriviaTrimAux false rest

/-- `format_trivia` (`format.rs` lines 623–661). -/
def formatTrivia (opts : FormattingOptions) : Option (List Trivia) → String
  | some t =>
    if opts.whitespace.trim then formatTriviaTrimAux true t
    else String.join (t.map Trivia.display)
  | none => ""

/-- `format_located` for a string-displayed node (`format.rs` lines
598–600). -/
def formatLocatedStr (opts : FormattingOptions) (l : Located String) :
    String :=
  formatTrivia opts l.trivia ++ l.data

/-- `format_optional_located` (`format.rs` lines 602–606). -/
def formatOptionalLocatedStr (opts : FormattingOptions) :
    Option (Located String) → String
  | some l => formatLocatedStr opts l
  | none => ""

/-- `format_expression_factor` (`format.rs` lines 714–754), fragment
arms. -/
def formatExpressionFactor (opts : FormattingOptions) : Factor → String
  | .number ty value => formatLocatedStr opts ty ++ formatLocatedStr opts value
  | .identifierValue path modifier =>
    modifier.getD "" ++ formatLocatedStr opts path

/-- `format_expression` (`format.rs` lines 674–712), `Factor` arm. -/
def formatExpression (opts : FormattingOptions) (e : Expr) : String :=
  e.tagNot.getD "" ++ e.tagNeg.getD "" ++
    (formatTrivia opts e.factor.trivia ++
     formatExpressionFactor opts e.factor.data)

/-- `prev_non_trivia_token` (`format.rs` lines 194–212): walk backwards
from the current index, skipping `EolTrivia` and `Eof` tokens. -/
def prevNonTriviaToken (ast : List Token) : Nat → Option Token
  | 0 => none
  | idx + 1 =>
    match ast.get? idx with
    | some (Token.eolTrivia _) => prevNonTriviaToken ast idx
    | some (Token.eof _) => prevNonTriviaToken ast idx
    | some t => some t
    | none => none

/-- The `Token::EolTrivia`/`Token::Eof` arm of `format_token`
(`format.rs` lines 366–387).  Note `eol.map_once(|_| "\n")`: the token's
payload is replaced by a bare line feed, so this arm always emits `"\n"`
after its trivia (unless collapsed). -/
def formatEol (opts : FormattingOptions) (output : List (Nat × String))
    (eol : Located Unit) : String :=
  if opts.whitespace.collapseMultipleEmptyLines ∧
      0 < precedingNewlineLen (output.map Prod.snd) then ""
  else
    let e := formatTrivia opts eol.trivia ++ "\n"
    if ¬(rustTrim e).isEmpty ∧ opts.whitespace.spaceBeforeEndOfLineComments
    then " " ++ e
    else e

/-- `format_token` (`format.rs` lines 251–596) for the fragment: the
`Token::Instruction` arm (lines 435–519) and the `EolTrivia`/`Eof` arm
(lines 366–387).  `ast`/`index`/`output` are the formatter state those
arms read (`prev_non_trivia_token`, `preceding_newline_len`). -/
def formatToken (opts : FormattingOptions) (ast : List Token) (index : Nat)
    (output : List (Nat × String)) : Token → String
  | .instruction i =>
    let mnemonicData :=
      opts.mnemonics.casing.format (mnemonicDisplay i.mnemonic.data)
    let mnem := formatTrivia opts i.mnemonic.trivia ++ mnemonicData
    let mnem :=
      match prevNonTriviaToken ast index with
      | some (.instruction _) =>
        if opts.mnemonics.onePerLine then
          if precedingNewlineLen (output.map Prod.snd) = 0 then
            "\n" ++ trimStart mnem
          else trimStart mnem
        else if (formatTrivia opts i.mnemonic.trivia).isEmpty then
          " " ++ mnem
        else mnem
      | _ => if opts.whitespace.trim then trimStart mnem else mnem
    let operand :=
      match i.operand with
      | some o =>
        let lchar := formatOptionalLocatedStr opts o.lchar
        let rchar := formatOptionalLocatedStr opts o.rchar
        let expr := formatTrivia opts o.expr.trivia ++
          formatExpression opts o.expr.data
        let suffix :=
          match o.suffix with
          | some s =>
            formatLocatedStr opts s.comma ++
              (formatTrivia opts s.register.trivia ++
               opts.mnemonics.registerCasing.format
                 (registerDisplay s.register.data))
          | none => ""
        match o.addressingMode with
        | .absoluteOrZP => expr ++ suffix
        | .immediate => lchar ++ expr
        | .implied => ""
        | .outerIndirect => lchar ++ expr ++ rchar ++ suffix
        | .indirect => lchar ++ expr ++ suffix ++ rchar
      | none => ""
    mnem ++ spacePrefix operand
  | .eolTrivia eol => formatEol opts output eol
  | .eof eol => formatEol opts output eol

/-- The token loop of `CodeFormatter::format` (`format.rs` lines
214–233): format each token in order, pushing non-empty results with
their indent level (`EolTrivia` is never indented) and advancing the
index. -/
def formatAux (opts : FormattingOptions) (ast : List Token) (indent : Nat) :
    Nat → List (Nat × String) → List Token → List (Nat × String)
  | _, output, [] => output
  | index, output, tok :: rest =>
    let str := formatToken opts ast index output tok
    let output' :=
      if str.isEmpty then output
      else
        let level :=
          match tok with
          | Token.eolTrivia _ => 0
          | _ => indent
        output ++ [(level, str)]
    formatAux opts ast indent (index + 1) output' rest

/-- The top-level `format` (`format.rs` lines 795–803) composed with
`CodeFormatter::format`: run the token loop (initial indent 0), lay the
pieces out with `indent_str`, and trim the result when requested. -/
def format (ast : List Token) (opts : FormattingOptions) : String :=
  let result := indentStr (formatAux opts ast 0 0 [] ast)
  if opts.whitespace.trim then rustTrim result else result

end Fm

namespace Cg

/-! ### Helper lemmas about the embedded code -/

theorem evaluate_false_ne_err (ctx : CodegenContext) :
    ∀ (e : Expression) (er : CodegenError), evaluate ctx false e ≠ .err er := by
  intro e
  induction e with
  | number n => intro er h; simp [evaluate] at h
  | currentProgramCounter => intro er h; simp [evaluate] at h
  | binaryAdd l r ihl ihr =>
    intro er h
    unfold evaluate at h
    cases hl : evaluate ctx false l with
    | err e => exact ihl e hl
    | panic m => rw [hl] at h; simp at h
    | ok lv =>
      rw [hl] at h
      cases hr : evaluate ctx false r with
      | err e => exact ihr e hr
      | panic m => rw [hr] at h; simp at h
      | ok rv =>
        rw [hr] at h
        rcases lv with _ | a <;> rcases rv with _ | b <;> simp at h
  | binarySub l r ihl ihr =>
    intro er h
    unfold evaluate at h
    cases hl : evaluate ctx false l with
    | err e => exact ihl e hl
    | panic m => rw [hl] at h; simp at h
    | ok lv =>
      rw [hl] at h
      cases hr : evaluate ctx false r with
      | err e => exact ihr e hr
      | panic m => rw [hr] at h; simp at h
      | ok rv =>
        rw [hr] at h
        rcases lv with _ | a <;> rcases rv with _ | b <;> simp at h
  | binaryMul l r ihl ihr =>
    intro er h
    unfold evaluate at h
    cases hl : evaluate ctx false l with
    | err e => exact ihl e hl
    | panic m => rw [hl] at h; simp at h
    | ok lv =>
      rw [hl] at h
      cases hr : evaluate ctx false r with
      | err e => exact ihr e hr
      | panic m => rw [hr] at h; simp at h
      | ok rv =>
        rw [hr] at h
        rcases lv with _ | a <;> rcases rv with _ | b <;> simp at h
  | binaryDiv l r ihl ihr =>
    intro er h
    unfold evaluate at h
    cases hl : evaluate ctx false l with
    | err e => exact ihl e hl
    | panic m => rw [hl] at h; simp at h
    | ok lv =>
      rw [hl] at h
      cases hr : evaluate ctx false r with
      | err e => exact ihr e hr
      | panic m => rw [hr] at h; simp at h
      | ok rv =>
        rw [hr] at h
        rcases lv with _ | a <;> rcases rv with _ | b <;> simp at h
        split at h <;> simp_all
  | identifierValue id modifier =>
    intro er h
    unfold evaluate at h
    cases hs : ctx.symbols id with
    | some s =>
      rw [hs] at h
      rcases modifier with _ | m
      · simp at h
      · cases m <;> simp at h
    | none => rw [hs] at h; simp at h
  | unsupported => intro er h; simp [evaluate] at h

theorem evaluate_true_ne_ok_none (ctx : CodegenContext) :
    ∀ e : Expression, evaluate ctx true e ≠ .ok none := by
  intro e
  induction e with
  | number n => intro h; simp [evaluate] at h
  | currentProgramCounter => intro h; simp [evaluate] at h
  | binaryAdd l r ihl ihr =>
    intro h
    unfold evaluate at h
    cases hl : evaluate ctx true l with
    | err e => rw [hl] at h; simp at h
    | panic m => rw [hl] at h; simp at h
    | ok lv =>
      rw [hl] at h
      cases hr : evaluate ctx true r with
      | err e => rw [hr] at h; simp at h
      | panic m => rw [hr] at h; simp at h
      | ok rv =>
        rw [hr] at h
        rcases lv with _ | a
        · exact ihl hl
        rcases rv with _ | b
        · exact ihr hr
        simp at h
  | binarySub l r ihl ihr =>
    intro h
    unfold evaluate at h
    cases hl : evaluate ctx true l with
    | err e => rw [hl] at h; simp at h
    | panic m => rw [hl] at h; simp at h
    | ok lv =>
      rw [hl] at h
      cases hr : evaluate ctx true r with
      | err e => rw [hr] at h; simp at h
      | panic m => rw [hr] at h; simp at h
      | ok rv =>
        rw [hr] at h
        rcases lv with _ | a
        · exact ihl hl
        rcases rv with _ | b
        · exact ihr hr
        simp at h
  | binaryMul l r ihl ihr =>
    intro h
    unfold evaluate at h
    cases hl : evaluate ctx true l with
    | err e => rw [hl] at h; simp at h
    | panic m => rw [hl] at h; simp at h
    | ok lv =>
      rw [hl] at h
      cases hr : evaluate ctx true r with
      | err e => rw [hr] at h; simp at h
      | panic m => rw [hr] at h; simp at h
      | ok rv =>
        rw [hr] at h
        rcases lv with _ | a
        · exact ihl hl
        rcases rv with _ | b
        · exact ihr hr
        simp at h
  | binaryDiv l r ihl ihr =>
    intro h
    unfold evaluate at h
    cases hl : evaluate ctx true l with
    | err e => rw [hl] at h; simp at h
    | panic m => rw [hl] at h; simp at h
    | ok lv =>
      rw [hl] at h
      cases hr : evaluate ctx true r with
      | err e => rw [hr] at h; simp at h
      | panic m => rw [hr] at h; simp at h
      | ok rv =>
        rw [hr] at h
        rcases lv with _ | a
        · exact ihl hl
        rcases rv with _ | b
        · exact ihr hr
        simp at h
        split at h <;> simp_all
  | identifierValue id modifier =>
    intro h
    unfold evaluate at h
    cases hs : ctx.symbols id with
    | some s =>
      rw [hs] at h
      rcases modifier with _ | m
      · simp at h
      · cases m <;> simp at h
    | none => rw [hs] at h; simp at h
  | unsupported => intro h; simp [evaluate] at h

theorem toI64_eq_of_lt {n : Nat} (h : n < 2 ^ 63) : toI64 n = (n : Int) := by
  have hU : n % U64 = n := Nat.mod_eq_of_lt (lt_trans h (by norm_num [U64]))
  unfold toI64
  rw [hU, if_pos h]

theorem wrapI64_eq_of_bounds {x : Int} (h1 : -(2 ^ 63) ≤ x) (h2 : x < 2 ^ 63) :
    wrapI64 x = x := by
  unfold wrapI64
  omega

theorem writeBytes_ok :
    ∀ (bs : List Nat) (d : Nat → Nat) (idx : Nat),
      idx + bs.length ≤ 65536 →
      ∃ d', writeBytes d idx bs = .ok d' ∧
        (∀ i, i < bs.length → d' (idx + i) = bs.getD i 0) ∧
        (∀ j, j < idx ∨ idx + bs.length ≤ j → d' j = d j) := by
  intro bs
  induction bs with
  | nil =>
    intro d idx _
    exact ⟨d, rfl, by intro i hi; simp at hi, by intro j _; rfl⟩
  | cons b rest ih =>
    intro d idx hle
    have hidx : idx < 65536 := by simp at hle; omega
    obtain ⟨d', hw, hset, hkeep⟩ :=
      ih (fun j => if j = idx then b else d j) (idx + 1) (by simp at hle ⊢; omega)
    refine ⟨d', ?_, ?_, ?_⟩
    · simp [writeBytes, hidx, hw]
    · intro i hi
      rcases i with _ | i
      · have := hkeep idx (Or.inl (by omega))
        simpa using this
      · have := hset i (by simp at hi ⊢; omega)
        rw [show idx + (i + 1) = idx + 1 + i by omega]
        simpa using this
    · intro j hj
      have hlen : (b :: rest).length = rest.length + 1 := by simp
      have hj' : j < idx + 1 ∨ idx + 1 + rest.length ≤ j := by
        rcases hj with hj | hj
        · left; omega
        · right; rw [hlen] at hj; omega
      have hne : j ≠ idx := by
        rcases hj with hj | hj
        · omega
        · rw [hlen] at hj; omega
      have hk := hkeep j hj'
      rw [hk]
      simp [hne]

theorem writeBytes_oob :
    ∀ (bs : List Nat) (d : Nat → Nat) (idx : Nat),
      idx ≤ 65536 → 65536 < idx + bs.length →
      writeBytes d idx bs = .error "index out of bounds" := by
  intro bs
  induction bs with
  | nil => intro d idx h1 h2; simp at h2; omega
  | cons b rest ih =>
    intro d idx h1 h2
    by_cases hidx : idx < 65536
    · simp [writeBytes, hidx]
      exact ih _ (idx + 1) (by omega) (by simp at h2 ⊢; omega)
    · have : ¬ idx < 65536 := hidx
      simp [writeBytes, this]

theorem maxByLenAux_spec :
    ∀ (l : List (Nat × Nat)) (acc : Option (Nat × Nat)) (m : Nat × Nat),
      maxByLenAux acc l = some m →
      (m ∈ l ∨ acc = some m) ∧ (∀ c ∈ l, c.2 ≤ m.2) ∧
        (∀ a, acc = some a → a.2 ≤ m.2) := by
  intro l
  induction l with
  | nil =>
    intro acc m h
    simp [maxByLenAux] at h
    exact ⟨Or.inr h, by intro c hc; simp at hc,
      by intro a ha; rw [ha] at h; simp at h; exact le_of_eq (by rw [h])⟩
  | cons c rest ih =>
    intro acc m h
    simp only [maxByLenAux] at h
    rcases acc with _ | a
    · obtain ⟨hmem, hle, hacc⟩ := ih (some c) m h
      refine ⟨?_, ?_, ?_⟩
      · rcases hmem with hm | hm
        · exact Or.inl (List.mem_cons_of_mem _ hm)
        · exact Or.inl (by simp at hm; simp [hm])
      · intro x hx
        rcases List.mem_cons.mp hx with hx | hx
        · rw [hx]; exact hacc c rfl
        · exact hle x hx
      · intro a ha; simp at ha
    · by_cases hcmp : a.2 ≤ c.2
      · simp only [hcmp, if_true] at h
        obtain ⟨hmem, hle, hacc⟩ := ih (some c) m h
        refine ⟨?_, ?_, ?_⟩
        · rcases hmem with hm | hm
          · exact Or.inl (List.mem_cons_of_mem _ hm)
          · exact Or.inl (by simp at hm; simp [hm])
        · intro x hx
          rcases List.mem_cons.mp hx with hx | hx
          · rw [hx]; exact hacc c rfl
          · exact hle x hx
        · intro b hb
          cases hb
          exact le_trans hcmp (hacc c rfl)
      · simp only [hcmp, if_false] at h
        obtain ⟨hmem, hle, hacc⟩ := ih (some a) m h
        refine ⟨?_, ?_, ?_⟩
        · rcases hmem with hm | hm
          · exact Or.inl (List.mem_cons_of_mem _ hm)
          · exact Or.inr hm
        · intro x hx
          rcases List.mem_cons.mp hx with hx | hx
          · rw [hx]
            have := hacc a rfl
            omega
          · exact hle x hx
        · intro b hb
          cases hb
          exact hacc a rfl

end Cg

namespace Cg

theorem registerSymbol_ok_symbols {ctx c : CodegenContext} {id : String}
    {val : Symbol} (h : registerSymbol ctx id val = .ok c) :
    c.symbols = fun k => if k = id then some val else ctx.symbols k := by
  unfold registerSymbol at h
  repeat' split at h
  all_goals (cases h <;> rfl)

theorem registerSymbol_err {ctx : CodegenContext} {id : String}
    {val : Symbol} {e : CodegenError} (h : registerSymbol ctx id val = .error e) :
    e = .symbolRedefinition id := by
  unfold registerSymbol at h
  repeat' split at h
  all_goals (cases h <;> rfl)

theorem emitInstruction_symbols (ctx : CodegenContext) (pc? : Option Nat)
    (i : Instruction) (flag : Bool) :
    match emitInstruction ctx pc? i flag with
    | .ok c _ => c.symbols = ctx.symbols
    | .err c _ => c.symbols = ctx.symbols
    | .panic _ => True := by
  cases hE : emitInstruction ctx pc? i flag with
  | panic m => simp
  | ok c r =>
    rcases pc? with _ | pc <;>
      (unfold emitInstruction at hE
       dsimp only at hE
       repeat' split at hE
       all_goals (cases hE; try rfl))
  | err c e =>
    rcases pc? with _ | pc <;>
      (unfold emitInstruction at hE
       dsimp only at hE
       repeat' split at hE
       all_goals (cases hE; try rfl))

theorem emitDataExprs_symbols (flag : Bool) (dataLength : Nat) :
    ∀ (exprs : List Expression) (ctx : CodegenContext) (anyFailed : Bool),
      match emitDataExprs flag dataLength ctx exprs anyFailed with
      | .ok c _ => c.symbols = ctx.symbols
      | .err c _ => c.symbols = ctx.symbols
      | .panic _ => True := by
  intro exprs
  induction exprs with
  | nil => intro ctx anyFailed; simp [emitDataExprs]
  | cons e rest ih =>
    intro ctx anyFailed
    cases hE : emitDataExprs flag dataLength ctx (e :: rest) anyFailed with
    | panic m => simp
    | ok c r =>
      unfold emitDataExprs at hE
      repeat' split at hE
      all_goals try (cases hE <;> rfl)
      all_goals rename_i seg' heq
      all_goals first
        | (have hrec := ih { ctx with seg := seg' } anyFailed
           rw [hE] at hrec
           simpa using hrec)
        | (have hrec := ih { ctx with seg := seg' } true
           rw [hE] at hrec
           simpa using hrec)
    | err c er =>
      unfold emitDataExprs at hE
      repeat' split at hE
      all_goals try (cases hE <;> rfl)
      all_goals rename_i seg' heq
      all_goals first
        | (have hrec := ih { ctx with seg := seg' } anyFailed
           rw [hE] at hrec
           simpa using hrec)
        | (have hrec := ih { ctx with seg := seg' } true
           rw [hE] at hrec
           simpa using hrec)

theorem emitData_symbols (ctx : CodegenContext) (pc? : Option Nat)
    (exprs : List Expression) (dataLength : Nat) (flag : Bool) :
    match emitData ctx pc? exprs dataLength flag with
    | .ok c _ => c.symbols = ctx.symbols
    | .err c _ => c.symbols = ctx.symbols
    | .panic _ => True := by
  have h := emitDataExprs_symbols flag dataLength exprs
    { ctx with seg := ctx.seg.setCurrentPc (pc?.getD ctx.seg.pc) } false
  cases hE : emitData ctx pc? exprs dataLength flag with
  | panic m => simp
  | ok c r =>
    unfold emitData at hE
    dsimp only at hE
    split at hE <;> rename_i heq <;> rw [heq] at h <;> cases hE <;> simpa using h
  | err c er =>
    unfold emitData at hE
    dsimp only at hE
    split at hE <;> rename_i heq <;> rw [heq] at h <;> cases hE <;> simpa using h

end Cg

namespace Cg

theorem evaluateOperand_true_not_none (ctx : CodegenContext) (pc : Nat)
    (i : Instruction) (op : Operand) (hop : i.operand = some op) :
    ∀ am suffix, evaluateOperand ctx pc i true ≠ .ok (am, none, suffix) := by
  intro am suffix h
  unfold evaluateOperand at h
  rw [hop] at h
  dsimp only at h
  cases hev : evaluate ctx true op.expr with
  | err e => rw [hev] at h; simp at h
  | panic m => rw [hev] at h; simp at h
  | ok evaluated =>
    rw [hev] at h
    rcases evaluated with _ | val
    · exact evaluate_true_ne_ok_none ctx op.expr hev
    · simp only at h
      split at h
      · split at h <;> simp at h
      · simp at h

theorem headOpcode_ne_false (cands : List (Nat × Nat)) (bytes : List Nat) :
    headOpcode cands ≠ some (false, bytes) := by
  intro h
  rcases cands with _ | ⟨⟨opc, len⟩, tail⟩ <;> simp [headOpcode] at h

theorem pickBytes_none_valid {val : Option Nat} {cands : List (Nat × Nat)}
    {bytes : List Nat} (h : pickBytes none val cands = some (false, bytes)) :
    False := by
  unfold pickBytes at h
  exact headOpcode_ne_false cands bytes h

theorem pickBytes_some_false_val {op : Operand} {val : Option Nat}
    {cands : List (Nat × Nat)} {bytes : List Nat}
    (h : pickBytes (some op) val cands = some (false, bytes)) :
    val = none := by
  unfold pickBytes at h
  rcases val with _ | v
  · rfl
  · dsimp only at h
    cases hp : pickOpcode v cands <;> rw [hp] at h <;> simp at h

theorem emitInstruction_true_no_requeue (ctx : CodegenContext)
    (pc? : Option Nat) (i : Instruction) :
    ∀ c p, emitInstruction ctx pc? i true ≠ .ok c (some p) := by
  intro c p h
  unfold emitInstruction at h
  rcases hop : i.operand with _ | op <;> rw [hop] at h <;> dsimp only at h
  · repeat' split at h
    all_goals (try cases h)
    all_goals try simp_all
    all_goals (rename pickBytes _ _ _ = _ => hp
               exact pickBytes_none_valid hp)
  · repeat' split at h
    all_goals (try cases h)
    all_goals try simp_all
    all_goals (rename pickBytes _ _ _ = _ => hp
               rename evaluateOperand _ _ _ _ = _ => he
               rw [pickBytes_some_false_val hp] at he
               exact evaluateOperand_true_not_none _ _ i op hop _ _ he)

theorem emitDataExprs_true_no_requeue (dataLength : Nat) :
    ∀ (exprs : List Expression) (ctx : CodegenContext) (c : CodegenContext)
      (p : Nat), emitDataExprs true dataLength ctx exprs false ≠ .ok c (some p) := by
  intro exprs
  induction exprs with
  | nil => intro ctx c p h; simp [emitDataExprs] at h
  | cons e rest ih =>
    intro ctx c p h
    unfold emitDataExprs at h
    cases hev : evaluate ctx true e with
    | err er => rw [hev] at h; simp at h
    | panic m => rw [hev] at h; simp at h
    | ok evaluated =>
      rw [hev] at h
      rcases evaluated with _ | val
      · exact evaluate_true_ne_ok_none ctx e hev
      · simp only at h
        cases hb : dataBytes dataLength val with
        | none => rw [hb] at h; simp at h
        | some bytes =>
          rw [hb] at h
          dsimp only at h
          cases hs : ctx.seg.set bytes with
          | error m => rw [hs] at h; simp at h
          | ok seg' =>
            rw [hs] at h
            exact ih { ctx with seg := seg' } c p h

theorem emitData_true_no_requeue (ctx : CodegenContext) (pc? : Option Nat)
    (exprs : List Expression) (dataLength : Nat) :
    ∀ c p, emitData ctx pc? exprs dataLength true ≠ .ok c (some p) := by
  intro c p h
  unfold emitData at h
  dsimp only at h
  cases hd : emitDataExprs true dataLength
      { ctx with seg := ctx.seg.setCurrentPc (pc?.getD ctx.seg.pc) } exprs false with
  | err c' e => rw [hd] at h; simp at h
  | panic m => rw [hd] at h; simp at h
  | ok c' r =>
    rw [hd] at h
    rcases r with _ | rp
    · simp at h
    · exact emitDataExprs_true_no_requeue dataLength exprs _ c' rp hd

theorem emitToken_true_no_requeue (ctx : CodegenContext) (pc? : Option Nat)
    (tok : Token) : ∀ c p, emitToken ctx pc? tok true ≠ .ok c (some p) := by
  intro c p h
  cases tok with
  | label id =>
    unfold emitToken at h
    dsimp only at h
    cases hr : registerSymbol ctx id (.label (pc?.getD ctx.seg.pc)) with
    | ok c' => rw [hr] at h; simp at h
    | error e => rw [hr] at h; simp at h
  | variableDefinition id val ty =>
    unfold emitToken at h
    dsimp only at h
    repeat' split at h
    all_goals simp_all
  | instruction i => exact emitInstruction_true_no_requeue ctx pc? i c p h
  | data exprs dataLength => exact emitData_true_no_requeue ctx pc? exprs dataLength c p h
  | other => simp [emitToken] at h

end Cg

namespace Cg

theorem evaluateOperand_false_err (ctx : CodegenContext) (pc : Nat)
    (i : Instruction) (e : CodegenError)
    (h : evaluateOperand ctx pc i false = .err e) : e = .branchTooFar := by
  unfold evaluateOperand at h
  rcases hop : i.operand with _ | op <;> rw [hop] at h <;> dsimp only at h
  · simp at h
  · cases hev : evaluate ctx false op.expr with
    | err er => exact absurd hev (evaluate_false_ne_err ctx op.expr er)
    | panic m => rw [hev] at h; simp at h
    | ok evaluated =>
      rw [hev] at h
      rcases evaluated with _ | val
      · simp at h
      · dsimp only at h
        split at h
        · split at h
          · simp at h
          · simp at h; exact h.symm
        · simp at h

theorem emitInstruction_false_err (ctx : CodegenContext) (pc? : Option Nat)
    (i : Instruction) (c : CodegenContext) (er : CodegenError)
    (h : emitInstruction ctx pc? i false = .err c er) : er = .branchTooFar := by
  rcases pc? with _ | pc <;>
    (unfold emitInstruction at h
     dsimp only at h
     repeat' split at h
     all_goals (try (cases h))
     all_goals (rename evaluateOperand _ _ _ _ = _ => he
                exact evaluateOperand_false_err _ _ i _ he))

theorem emitDataExprs_false_no_err (dataLength : Nat) :
    ∀ (exprs : List Expression) (ctx : CodegenContext) (anyFailed : Bool)
      (c : CodegenContext) (er : CodegenError),
      emitDataExprs false dataLength ctx exprs anyFailed ≠ .err c er := by
  intro exprs
  induction exprs with
  | nil => intro ctx anyFailed c er h; simp [emitDataExprs] at h
  | cons e rest ih =>
    intro ctx anyFailed c er h
    unfold emitDataExprs at h
    cases hev : evaluate ctx false e with
    | err e' => exact absurd hev (evaluate_false_ne_err ctx e e')
    | panic m => rw [hev] at h; simp at h
    | ok evaluated =>
      rw [hev] at h
      rcases evaluated with _ | val <;> dsimp only at h
      · cases hb : dataBytes dataLength 0 with
        | none => rw [hb] at h; simp at h
        | some bytes =>
          rw [hb] at h
          dsimp only at h
          cases hs : ctx.seg.set bytes with
          | error m => rw [hs] at h; simp at h
          | ok seg' =>
            rw [hs] at h
            exact ih { ctx with seg := seg' } true c er h
      · cases hb : dataBytes dataLength val with
        | none => rw [hb] at h; simp at h
        | some bytes =>
          rw [hb] at h
          dsimp only at h
          cases hs : ctx.seg.set bytes with
          | error m => rw [hs] at h; simp at h
          | ok seg' =>
            rw [hs] at h
            exact ih { ctx with seg := seg' } anyFailed c er h

theorem emitData_false_no_err (ctx : CodegenContext) (pc? : Option Nat)
    (exprs : List Expression) (dataLength : Nat) :
    ∀ c er, emitData ctx pc? exprs dataLength false ≠ .err c er := by
  intro c er h
  unfold emitData at h
  dsimp only at h
  cases hd : emitDataExprs false dataLength
      { ctx with seg := ctx.seg.setCurrentPc (pc?.getD ctx.seg.pc) } exprs false with
  | err c' e => exact emitDataExprs_false_no_err dataLength exprs _ false c' e hd
  | panic m => rw [hd] at h; simp at h
  | ok c' r => rw [hd] at h; simp at h

theorem emitToken_false_err_not_unknown (ctx : CodegenContext)
    (pc? : Option Nat) (tok : Token) (c : CodegenContext) (er : CodegenError)
    (h : emitToken ctx pc? tok false = .err c er) : er.isUnknownId = false := by
  cases tok with
  | label id =>
    unfold emitToken at h
    dsimp only at h
    cases hr : registerSymbol ctx id (.label (pc?.getD ctx.seg.pc)) with
    | ok c' => rw [hr] at h; simp at h
    | error e =>
      rw [hr] at h
      simp only at h
      cases h
      rw [registerSymbol_err hr]
      rfl
  | variableDefinition id val ty =>
    unfold emitToken at h
    dsimp only at h
    split at h
    · cases h; rfl
    · cases hev : evaluate ctx false val with
      | err e' => exact absurd hev (evaluate_false_ne_err ctx val e')
      | panic m => rw [hev] at h; simp at h
      | ok evaluated =>
        rw [hev] at h
        rcases evaluated with _ | w <;> dsimp only at h
        · simp at h
        · split at h
          · simp at h
          · rename registerSymbol _ _ _ = _ => hr
            cases h
            rw [registerSymbol_err hr]
            rfl
  | instruction i =>
    rw [emitInstruction_false_err ctx pc? i c er h]
    rfl
  | data exprs dataLength =>
    exact absurd h (emitData_false_no_err ctx pc? exprs dataLength c er)
  | other => simp [emitToken] at h

end Cg

namespace Cg

theorem emitToken_preserves_const (ctx : CodegenContext) (pc? : Option Nat)
    (tok : Token) (flag : Bool) (id : String) (v : Nat)
    (hconst : ctx.symbols id = some (.const v)) :
    ∀ s, Step.symbolOf (emitToken ctx pc? tok flag) id = some s →
      s = some (.const v) := by
  intro s hs
  cases tok with
  | label id' =>
    unfold emitToken at hs
    dsimp only at hs
    cases hr : registerSymbol ctx id' (.label (pc?.getD ctx.seg.pc)) with
    | ok c' =>
      rw [hr] at hs
      simp only [Step.symbolOf] at hs
      by_cases hid : id' = id
      · subst hid
        unfold registerSymbol at hr
        rw [hconst] at hr
        simp [Symbol.sameVariant] at hr
      · have hsym := registerSymbol_ok_symbols hr
        have hEq : c'.symbols id = ctx.symbols id := by
          rw [hsym]
          dsimp only
          rw [if_neg (show ¬(id = id') from fun hc => hid hc.symm)]
        simp only [Option.some.injEq] at hs
        rw [← hs, hEq]
        exact hconst
    | error e =>
      rw [hr] at hs
      simp only [Step.symbolOf, Option.some.injEq] at hs
      rw [← hs]
      exact hconst
  | variableDefinition id' e ty =>
    unfold emitToken at hs
    cases ty <;> dsimp only at hs
    all_goals
      split at hs
      case _ =>
        first
          | (simp only [Step.symbolOf, Option.some.injEq] at hs
             rw [← hs]
             exact hconst)
          | skip
      all_goals try rename_i hnc
      all_goals
        cases hev : evaluate ctx flag e with
        | err er =>
          rw [hev] at hs
          simp only [Step.symbolOf, Option.some.injEq] at hs
          rw [← hs]
          exact hconst
        | panic m =>
          rw [hev] at hs
          simp [Step.symbolOf] at hs
        | ok evaluated =>
          rw [hev] at hs
          rcases evaluated with _ | w <;> dsimp only at hs
          · simp [Step.symbolOf] at hs
          · split at hs
            · rename_i c' hr
              simp only [Step.symbolOf, Option.some.injEq] at hs
              by_cases hid : id' = id
              · subst hid
                first
                  | exact (hnc v hconst rfl).elim
                  | (unfold registerSymbol at hr
                     rw [hconst] at hr
                     simp [Symbol.sameVariant] at hr)
              · have hsym := registerSymbol_ok_symbols hr
                have hEq : c'.symbols id = ctx.symbols id := by
                  rw [hsym]
                  dsimp only
                  rw [if_neg (show ¬(id = id') from fun hc => hid hc.symm)]
                rw [← hs, hEq]
                exact hconst
            · simp only [Step.symbolOf, Option.some.injEq] at hs
              rw [← hs]
              exact hconst
  | instruction i =>
    unfold emitToken at hs
    dsimp only at hs
    have h := emitInstruction_symbols ctx pc? i flag
    cases hE : emitInstruction ctx pc? i flag with
    | ok c' r =>
      rw [hE] at h hs
      simp only [Step.symbolOf, Option.some.injEq] at hs
      rw [← hs, h]
      exact hconst
    | err c' er =>
      rw [hE] at h hs
      simp only [Step.symbolOf, Option.some.injEq] at hs
      rw [← hs, h]
      exact hconst
    | panic m =>
      rw [hE] at hs
      simp [Step.symbolOf] at hs
  | data exprs dataLength =>
    unfold emitToken at hs
    dsimp only at hs
    have h := emitData_symbols ctx pc? exprs dataLength flag
    cases hE : emitData ctx pc? exprs dataLength flag with
    | ok c' r =>
      rw [hE] at h hs
      simp only [Step.symbolOf, Option.some.injEq] at hs
      rw [← hs, h]
      exact hconst
    | err c' er =>
      rw [hE] at h hs
      simp only [Step.symbolOf, Option.some.injEq] at hs
      rw [← hs, h]
      exact hconst
    | panic m =>
      rw [hE] at hs
      simp [Step.symbolOf] at hs
  | other =>
    simp only [emitToken, Step.symbolOf, Option.some.injEq] at hs
    rw [← hs]
    exact hconst

end Cg

namespace Cg

theorem runPass_length_le :
    ∀ (items : List WorkItem) (ctx : CodegenContext) (flag : Bool)
      (c : CodegenContext) (next : List WorkItem) (errs : List CodegenError),
      runPass ctx items flag = .ok (c, next, errs) →
      next.length ≤ items.length := by
  intro items
  induction items with
  | nil =>
    intro ctx flag c next errs h
    simp [runPass] at h
    simp [h.2.1]
  | cons item rest ih =>
    intro ctx flag c next errs h
    rcases item with ⟨pc?, tok⟩
    unfold runPass at h
    cases hS : emitToken ctx pc? tok flag with
    | panic m => rw [hS] at h; simp at h
    | ok ctx' requeue =>
      rw [hS] at h
      dsimp only at h
      cases hR : runPass ctx' rest flag with
      | error m => rw [hR] at h; simp at h
      | ok t =>
        rcases t with ⟨c2, next2, errs2⟩
        rw [hR] at h
        dsimp only at h
        rcases requeue with _ | pcr <;> dsimp only at h <;>
          (injection h with h; injection h with h1 h2; injection h2 with h2a h2b)
        · rw [← h2a]
          exact le_trans (ih ctx' flag c2 next2 errs2 hR) (by simp)
        · rw [← h2a]
          simpa using ih ctx' flag c2 next2 errs2 hR
    | err ctx' e =>
      rw [hS] at h
      dsimp only at h
      cases hR : runPass ctx' rest flag with
      | error m => rw [hR] at h; simp at h
      | ok t =>
        rcases t with ⟨c2, next2, errs2⟩
        rw [hR] at h
        dsimp only at h
        injection h with h; injection h with h1 h2; injection h2 with h2a h2b
        rw [← h2a]
        exact le_trans (ih ctx' flag c2 next2 errs2 hR) (by simp)

theorem runPass_true_next_nil :
    ∀ (items : List WorkItem) (ctx : CodegenContext)
      (c : CodegenContext) (next : List WorkItem) (errs : List CodegenError),
      runPass ctx items true = .ok (c, next, errs) → next = [] := by
  intro items
  induction items with
  | nil =>
    intro ctx c next errs h
    simp [runPass] at h
    simp [h.2.1]
  | cons item rest ih =>
    intro ctx c next errs h
    rcases item with ⟨pc?, tok⟩
    unfold runPass at h
    cases hS : emitToken ctx pc? tok true with
    | panic m => rw [hS] at h; simp at h
    | ok ctx' requeue =>
      rw [hS] at h
      dsimp only at h
      cases hR : runPass ctx' rest true with
      | error m => rw [hR] at h; simp at h
      | ok t =>
        rcases t with ⟨c2, next2, errs2⟩
        rw [hR] at h
        dsimp only at h
        rcases requeue with _ | pcr <;> dsimp only at h
        · injection h with h; injection h with h1 h2; injection h2 with h2a h2b
          rw [← h2a]
          exact ih ctx' c2 next2 errs2 hR
        · exact absurd hS (emitToken_true_no_requeue ctx pc? tok ctx' pcr)
    | err ctx' e =>
      rw [hS] at h
      dsimp only at h
      cases hR : runPass ctx' rest true with
      | error m => rw [hR] at h; simp at h
      | ok t =>
        rcases t with ⟨c2, next2, errs2⟩
        rw [hR] at h
        dsimp only at h
        injection h with h; injection h with h1 h2; injection h2 with h2a h2b
        rw [← h2a]
        exact ih ctx' c2 next2 errs2 hR

theorem runPass_false_errs_not_unknown :
    ∀ (items : List WorkItem) (ctx : CodegenContext)
      (c : CodegenContext) (next : List WorkItem) (errs : List CodegenError),
      runPass ctx items false = .ok (c, next, errs) →
      ∀ er ∈ errs, er.isUnknownId = false := by
  intro items
  induction items with
  | nil =>
    intro ctx c next errs h
    simp [runPass] at h
    intro er her
    rw [h.2.2] at her
    simp at her
  | cons item rest ih =>
    intro ctx c next errs h
    rcases item with ⟨pc?, tok⟩
    unfold runPass at h
    cases hS : emitToken ctx pc? tok false with
    | panic m => rw [hS] at h; simp at h
    | ok ctx' requeue =>
      rw [hS] at h
      dsimp only at h
      cases hR : runPass ctx' rest false with
      | error m => rw [hR] at h; simp at h
      | ok t =>
        rcases t with ⟨c2, next2, errs2⟩
        rw [hR] at h
        dsimp only at h
        rcases requeue with _ | pcr <;> dsimp only at h <;>
          (injection h with h; injection h with h1 h2; injection h2 with h2a h2b) <;>
          rw [← h2b] <;>
          exact ih ctx' c2 next2 errs2 hR
    | err ctx' e =>
      rw [hS] at h
      dsimp only at h
      cases hR : runPass ctx' rest false with
      | error m => rw [hR] at h; simp at h
      | ok t =>
        rcases t with ⟨c2, next2, errs2⟩
        rw [hR] at h
        dsimp only at h
        injection h with h; injection h with h1 h2; injection h2 with h2a h2b
        rw [← h2b]
        intro er her
        rcases List.mem_cons.mp her with her | her
        · rw [her]
          exact emitToken_false_err_not_unknown ctx pc? tok ctx' e hS
        · exact ih ctx' c2 next2 errs2 hR er her

theorem runPass_preserves_const :
    ∀ (items : List WorkItem) (ctx : CodegenContext) (flag : Bool)
      (id : String) (v : Nat)
      (c : CodegenContext) (next : List WorkItem) (errs : List CodegenError),
      ctx.symbols id = some (.const v) →
      runPass ctx items flag = .ok (c, next, errs) →
      c.symbols id = some (.const v) := by
  intro items
  induction items with
  | nil =>
    intro ctx flag id v c next errs hconst h
    simp [runPass] at h
    rw [← h.1]
    exact hconst
  | cons item rest ih =>
    intro ctx flag id v c next errs hconst h
    rcases item with ⟨pc?, tok⟩
    unfold runPass at h
    cases hS : emitToken ctx pc? tok flag with
    | panic m => rw [hS] at h; simp at h
    | ok ctx' requeue =>
      rw [hS] at h
      dsimp only at h
      have hconst' : ctx'.symbols id = some (.const v) := by
        have := emitToken_preserves_const ctx pc? tok flag id v hconst
          (ctx'.symbols id) (by rw [hS]; rfl)
        exact this
      cases hR : runPass ctx' rest flag with
      | error m => rw [hR] at h; simp at h
      | ok t =>
        rcases t with ⟨c2, next2, errs2⟩
        rw [hR] at h
        dsimp only at h
        rcases requeue with _ | pcr <;> dsimp only at h <;>
          (injection h with h; injection h with h1 h2) <;>
          rw [← h1] <;>
          exact ih ctx' flag id v c2 next2 errs2 hconst' hR
    | err ctx' e =>
      rw [hS] at h
      dsimp only at h
      have hconst' : ctx'.symbols id = some (.const v) := by
        have := emitToken_preserves_const ctx pc? tok flag id v hconst
          (ctx'.symbols id) (by rw [hS]; rfl)
        exact this
      cases hR : runPass ctx' rest flag with
      | error m => rw [hR] at h; simp at h
      | ok t =>
        rcases t with ⟨c2, next2, errs2⟩
        rw [hR] at h
        dsimp only at h
        injection h with h; injection h with h1 h2
        rw [← h1]
        exact ih ctx' flag id v c2 next2 errs2 hconst' hR

end Cg

namespace Cg

theorem codegenLoop_fuel_sufficient :
    ∀ (fuel : Nat) (ctx : CodegenContext) (items : List WorkItem)
      (flag : Bool) (errs : List CodegenError),
      2 * items.length + (if flag then 0 else 1) < fuel →
      codegenLoop fuel ctx items flag errs ≠ none := by
  intro fuel
  induction fuel with
  | zero => intro ctx items flag errs hlt; omega
  | succ fuel ih =>
    intro ctx items flag errs hlt h
    unfold codegenLoop at h
    by_cases hitems : items = []
    · rw [if_pos hitems] at h; simp at h
    · rw [if_neg hitems] at h
      cases hR : runPass ctx items flag with
      | error m => rw [hR] at h; simp at h
      | ok t =>
        rcases t with ⟨ctx', next, newErrs⟩
        rw [hR] at h
        dsimp only at h
        refine ih ctx' next _ _ ?_ h
        have hle := runPass_length_le items ctx flag ctx' next newErrs hR
        have hlen1 : 1 ≤ items.length := by
          rcases items with _ | ⟨a, b⟩
          · exact absurd rfl hitems
          · simp
        cases flag with
        | true =>
          have hnil := runPass_true_next_nil items ctx ctx' next newErrs hR
          rw [hnil]
          simp at hlt ⊢
          omega
        | false =>
          by_cases heq2 : next.length = items.length
          · have hb : (false || decide (next.length = items.length)) = true := by
              simp [heq2]
            rw [hb]
            simp at hlt ⊢
            omega
          · have hlt2 : next.length < items.length := lt_of_le_of_ne hle heq2
            have hb : (false || decide (next.length = items.length)) = false := by
              simp [heq2]
            rw [hb]
            simp at hlt ⊢
            omega

theorem codegenLoop_preserves_const :
    ∀ (fuel : Nat) (ctx : CodegenContext) (items : List WorkItem)
      (flag : Bool) (errs : List CodegenError) (c : CodegenContext)
      (es : List CodegenError) (id : String) (v : Nat),
      ctx.symbols id = some (.const v) →
      codegenLoop fuel ctx items flag errs = some (.ok (c, es)) →
      c.symbols id = some (.const v) := by
  intro fuel
  induction fuel with
  | zero => intro ctx items flag errs c es id v hconst h; simp [codegenLoop] at h
  | succ fuel ih =>
    intro ctx items flag errs c es id v hconst h
    unfold codegenLoop at h
    by_cases hitems : items = []
    · rw [if_pos hitems] at h
      simp at h
      rw [← h.1]
      exact hconst
    · rw [if_neg hitems] at h
      cases hR : runPass ctx items flag with
      | error m => rw [hR] at h; simp at h
      | ok t =>
        rcases t with ⟨ctx', next, newErrs⟩
        rw [hR] at h
        dsimp only at h
        exact ih ctx' next _ _ c es id v
          (runPass_preserves_const items ctx flag id v ctx' next newErrs hconst hR) h

theorem codegenLoop_nostall_no_unknown :
    ∀ (fuel : Nat) (ctx : CodegenContext) (items : List WorkItem)
      (errs0 : List CodegenError) (c : CodegenContext)
      (es : List CodegenError),
      NoStall ctx items →
      codegenLoop fuel ctx items false errs0 = some (.ok (c, es)) →
      ∀ er ∈ es, er ∈ errs0 ∨ er.isUnknownId = false := by
  intro fuel
  induction fuel with
  | zero => intro ctx items errs0 c es hns h; simp [codegenLoop] at h
  | succ fuel ih =>
    intro ctx items errs0 c es hns h
    unfold codegenLoop at h
    by_cases hitems : items = []
    · rw [if_pos hitems] at h
      simp at h
      intro er her
      rw [← h.2] at her
      exact Or.inl her
    · rw [if_neg hitems] at h
      cases hR : runPass ctx items false with
      | error m => rw [hR] at h; simp at h
      | ok t =>
        rcases t with ⟨ctx', next, newErrs⟩
        rw [hR] at h
        dsimp only at h
        cases hns with
        | nil => exact absurd rfl hitems
        | fail _ _ m hfail => rw [hfail] at hR; exact absurd hR (by simp)
        | step _ _ c2 next2 errs2 hstep hlt hns' =>
          rw [hR] at hstep
          injection hstep with hstep
          injection hstep with he1 he2
          injection he2 with he2a he2b
          subst he1
          subst he2a
          subst he2b
          have hne : ¬ (next.length = items.length) := by omega
          rw [show (false || decide (next.length = items.length)) = false by
            simp [hne]] at h
          intro er her
          have := ih ctx' next (errs0 ++ newErrs) c es hns' h er her
          rcases this with hmem | hunk
          · rcases List.mem_append.mp hmem with hmem | hmem
            · exact Or.inl hmem
            · exact Or.inr (runPass_false_errs_not_unknown items ctx ctx' next
                newErrs hR er hmem)
          · exact Or.inr hunk

end Cg

/-! ### Claim theorems -/

/-- Claim C1 (code bug).  The claim states that `SegmentMerger::merge`
records a `BuildError` whenever the new segment's range intersects a
previously merged segment's range.  The code's
`overlaps_with_sources` only tests whether an endpoint of the new range
falls inside an old range, so a new segment whose range strictly
contains an old one is not reported: merging segment `a` with range
`[0x1000, 0x1002)` and then segment `b` with range `[0x800, 0x2000)`
(which contains `a`'s range, so the two ranges intersect) records no
error at all. -/
theorem c1_overlap_containment_missed :
    ((((Mg.SegmentMerger.new "out").merge "a"
        { range := some (0x1000, 0x1002), data := fun _ => 1 }).merge "b"
        { range := some (0x800, 0x2000), data := fun _ => 2 }).errors = []) ∧
    Mg.rangesIntersect (0x800, 0x2000) (0x1000, 0x1002) ∧
    ((((Mg.SegmentMerger.new "out").merge "a"
        { range := some (0x1000, 0x1002), data := fun _ => 1 }).merge "c"
        { range := some (0x1001, 0x3000), data := fun _ => 3 }).errors =
      [{ target := "out", segName := "c", segRange := (0x1001, 0x3000),
         overlaps := [("a", (0x1000, 0x1002))] }]) := by
  refine ⟨rfl, by decide, rfl⟩

/-- Claim C8 (code bug).  The claim states that a division whose
right-hand side evaluates to 0 yields a `division by zero` diagnostic
as an error value and that the assembler does not abort.  In the code,
`evaluate` computes `lhs / rhs` with plain `usize` division, which
panics on a zero divisor, and the whole `codegen` run aborts with that
panic; no diagnostic is produced.  Division is indeed integer division
(8 / 3 evaluates to 2). -/
theorem c8_division_by_zero_panics :
    Cg.evaluate (Cg.CodegenContext.new 0xc000) false
        (.binaryDiv (.number 1) (.number 0)) =
      .panic "attempt to divide by zero" ∧
    Cg.resultPanic (Cg.codegen
        [.instruction ⟨.lda, some ⟨.immediate,
          .binaryDiv (.number 1) (.number 0), none⟩⟩] 0xc000) =
      some "attempt to divide by zero" ∧
    Cg.evaluate (Cg.CodegenContext.new 0xc000) false
        (.binaryDiv (.number 8) (.number 3)) = .ok (some 2) := by
  refine ⟨rfl, rfl, rfl⟩

/-- Claim C10, counterexample.  The claim asserts that whenever
`pc + len(b) <= 65536` the write succeeds, advances the pc by `len(b)`
and widens the covered range over the written interval.  At the
boundary `pc = 0xFFFF`, `len = 1` (so `pc + len = 65536 <= 65536`) the
byte is written, but the 16-bit pc wraps around to 0 instead of
advancing to 65536, and the covered range remains the empty range
`[0xFFFF, 0xFFFF)`, which does not include the written byte. -/
theorem c10_boundary_wraps_pc :
    ∃ s : Cg.Segment,
      (Cg.Segment.new 0xFFFF).set [42] = .ok s ∧
      s.pc = 0 ∧
      s.pc ≠ 0xFFFF + 1 ∧
      s.range = some (0xFFFF, 0xFFFF) ∧
      (∀ a b : Nat, s.range = some (a, b) → ¬ (0xFFFF + 1 ≤ b)) ∧
      s.data 0xFFFF = 42 := by
  refine ⟨_, rfl, rfl, by decide, rfl, ?_, rfl⟩
  intro a b hab
  injection hab with hab
  have hb : b = 0xFFFF := (congrArg Prod.snd hab).symm
  omega

/-- Claim C6, counterexample.  The claim asserts that once `foo` is a
constant, a later definition of a different variant yields the
`cannot redefine symbol` diagnostic.  But when the later `.var`
definition's right-hand side cannot be evaluated (here: the undefined
identifier `bar`, with `error_on_failure = false`), `emit_token` panics
on the `.unwrap()` instead of producing any diagnostic. -/
theorem c6_var_redefinition_panics :
    Cg.Step.panicOf (Cg.emitToken
        { seg := Cg.Segment.new 49152,
          symbols := fun k => if k = "foo" then some (.const 10) else none }
        none (.variableDefinition "foo" (.identifierValue "bar" none) .var)
        false) =
      some "called Option unwrap on a None value" ∧
    Cg.Step.errOf (Cg.emitToken
        { seg := Cg.Segment.new 49152,
          symbols := fun k => if k = "foo" then some (.const 10) else none }
        none (.variableDefinition "foo" (.identifierValue "bar" none) .var)
        false) = none := by
  exact ⟨rfl, rfl⟩

/-- Claim C6 (amended).  Once an identifier is registered as a
`Constant`, its symbol-table entry never changes: (a) a later constant
definition of the same name yields `cannot reassign constant` with the
context unchanged; (b) a later label yields `cannot redefine symbol`
with the context unchanged; (c) a later variable definition whose
right-hand side evaluates yields `cannot redefine symbol` with the
context unchanged (if the right-hand side cannot be evaluated, the code
panics instead — see the counterexample); (d) no single statement, and
(e) no whole fixpoint run, ever changes the stored constant. -/
theorem c6_constants_immutable (ctx : Cg.CodegenContext) (id : String)
    (v : Nat) (hconst : ctx.symbols id = some (.const v)) :
    (∀ (e : Cg.Expression) (pc? : Option Nat) (flag : Bool),
        Cg.emitToken ctx pc? (.variableDefinition id e .const) flag =
          .err ctx (.constantReassignment id)) ∧
    (∀ (pc? : Option Nat) (flag : Bool),
        Cg.emitToken ctx pc? (.label id) flag =
          .err ctx (.symbolRedefinition id)) ∧
    (∀ (e : Cg.Expression) (pc? : Option Nat) (flag : Bool) (w : Nat),
        Cg.evaluate ctx flag e = .ok (some w) →
        Cg.emitToken ctx pc? (.variableDefinition id e .var) flag =
          .err ctx (.symbolRedefinition id)) ∧
    (∀ (tok : Cg.Token) (pc? : Option Nat) (flag : Bool) (s : Option Cg.Symbol),
        Cg.Step.symbolOf (Cg.emitToken ctx pc? tok flag) id = some s →
        s = some (.const v)) ∧
    (∀ (fuel : Nat) (items : List Cg.WorkItem) (flag : Bool)
        (errs : List Cg.CodegenError) (c : Cg.CodegenContext)
        (es : List Cg.CodegenError),
        Cg.codegenLoop fuel ctx items flag errs = some (.ok (c, es)) →
        c.symbols id = some (.const v)) := by
  refine ⟨?_, ?_, ?_, ?_, ?_⟩
  · intro e pc? flag
    unfold Cg.emitToken
    dsimp only
    rw [hconst]
  · intro pc? flag
    unfold Cg.emitToken
    dsimp only
    unfold Cg.registerSymbol
    rw [hconst]
    simp [Cg.Symbol.sameVariant]
  · intro e pc? flag w hv
    unfold Cg.emitToken
    dsimp only
    rw [hconst]
    dsimp only
    rw [hv]
    dsimp only
    unfold Cg.registerSymbol
    rw [hconst]
    simp [Cg.Symbol.sameVariant]
  · intro tok pc? flag s hs
    exact Cg.emitToken_preserves_const ctx pc? tok flag id v hconst s hs
  · intro fuel items flag errs c es h
    exact Cg.codegenLoop_preserves_const fuel ctx items flag errs c es id v hconst h

/-- Witness for C6: a context in which `foo` is the constant 10.  The
hypothesis is discharged by `rfl` and the theorem applied at concrete
inputs. -/
theorem c6_constants_immutable_witness :
    ({ seg := Cg.Segment.new 49152,
       symbols := fun k => if k = "foo" then some (.const 10) else none } :
        Cg.CodegenContext).symbols "foo" = some (.const 10) ∧
    Cg.emitToken
        { seg := Cg.Segment.new 49152,
          symbols := fun k => if k = "foo" then some (.const 10) else none }
        none (.variableDefinition "foo" (.number 20) .const) false =
      .err { seg := Cg.Segment.new 49152,
             symbols := fun k => if k = "foo" then some (.const 10) else none }
        (.constantReassignment "foo") := by
  refine ⟨rfl, ?_⟩
  exact (c6_constants_immutable _ "foo" 10 rfl).1 (.number 20) none false

/-- Claim C9.  A variable/constant definition whose right-hand side
does not evaluate on the current pass (`error_on_failure = false`, so
evaluation returns no value) makes `emit_token` panic on the
`.unwrap()` — it is neither re-queued for a later pass nor reported as
a diagnostic, so definitions never participate in forward-reference
resolution.  (The guard hypothesis excludes the constant-reassignment
check, which fires before evaluation.) -/
theorem c9_definition_unresolved_rhs_panics (ctx : Cg.CodegenContext)
    (pc? : Option Nat) (id : String) (e : Cg.Expression)
    (ty : Cg.VariableType)
    (hguard : ¬ ∃ c, ctx.symbols id = some (.const c) ∧ ty = .const)
    (hv : Cg.evaluate ctx false e = .ok none) :
    Cg.emitToken ctx pc? (.variableDefinition id e ty) false =
      .panic "called Option unwrap on a None value" := by
  cases ty with
  | const =>
    rcases hsym : ctx.symbols id with _ | sym
    · simp [Cg.emitToken, hsym, hv]
    · cases sym with
      | const c => exact absurd ⟨c, hsym, rfl⟩ hguard
      | label p => simp [Cg.emitToken, hsym, hv]
      | var w => simp [Cg.emitToken, hsym, hv]
  | var =>
    rcases hsym : ctx.symbols id with _ | sym
    · simp [Cg.emitToken, hsym, hv]
    · cases sym <;> simp [Cg.emitToken, hsym, hv]

/-- Witness for C9: defining `a` from the undefined identifier `b` in a
fresh context panics. -/
theorem c9_definition_unresolved_rhs_panics_witness :
    (¬ ∃ c, (Cg.CodegenContext.new 49152).symbols "a" = some (.const c) ∧
        Cg.VariableType.var = .const) ∧
    Cg.emitToken (Cg.CodegenContext.new 49152) none
        (.variableDefinition "a" (.identifierValue "b" none) .var) false =
      .panic "called Option unwrap on a None value" := by
  refine ⟨?_, ?_⟩
  · rintro ⟨c, hc, _⟩
    simp [Cg.CodegenContext.new] at hc
  · exact c9_definition_unresolved_rhs_panics (Cg.CodegenContext.new 49152)
      none "a" (.identifierValue "b" none) .var
      (by rintro ⟨c, hc, _⟩; simp [Cg.CodegenContext.new] at hc) rfl

/-- Claim C4.  The `unknown identifier` diagnostic is gated on
`error_on_failure`: (1) with `error_on_failure = false` the evaluator
never returns any error at all, (2)–(3) no statement and no full pass
run with `error_on_failure = false` can produce an `unknown identifier`
diagnostic, (4) the flag is latched to true by the loop exactly after a
pass that resolves nothing, so a run that never stalls (every pass
strictly shrinks the worklist — the situation in which every forward
reference resolves) accumulates no `unknown identifier` diagnostics,
and (5) `codegen` surfaces a non-empty error list only after the
worklist loop has ended. -/
theorem c4_unknown_identifier_gating :
    (∀ (ctx : Cg.CodegenContext) (e : Cg.Expression) (er : Cg.CodegenError),
        Cg.evaluate ctx false e ≠ .err er) ∧
    (∀ (ctx : Cg.CodegenContext) (pc? : Option Nat) (tok : Cg.Token)
        (c : Cg.CodegenContext) (er : Cg.CodegenError),
        Cg.emitToken ctx pc? tok false = .err c er → er.isUnknownId = false) ∧
    (∀ (items : List Cg.WorkItem) (ctx c : Cg.CodegenContext)
        (next : List Cg.WorkItem) (errs : List Cg.CodegenError),
        Cg.runPass ctx items false = .ok (c, next, errs) →
        ∀ er ∈ errs, er.isUnknownId = false) ∧
    (∀ (fuel : Nat) (ctx : Cg.CodegenContext) (items : List Cg.WorkItem)
        (errs0 : List Cg.CodegenError) (c : Cg.CodegenContext)
        (es : List Cg.CodegenError),
        Cg.NoStall ctx items →
        Cg.codegenLoop fuel ctx items false errs0 = some (.ok (c, es)) →
        ∀ er ∈ es, er ∈ errs0 ∨ er.isUnknownId = false) ∧
    (∀ (ast : List Cg.Token) (pc : Nat) (errs : List Cg.CodegenError),
        Cg.resultErrors (Cg.codegen ast pc) = some errs → errs ≠ []) := by
  refine ⟨?_, ?_, ?_, ?_, ?_⟩
  · intro ctx e er
    exact Cg.evaluate_false_ne_err ctx e er
  · intro ctx pc? tok c er
    exact Cg.emitToken_false_err_not_unknown ctx pc? tok c er
  · intro items ctx c next errs
    exact Cg.runPass_false_errs_not_unknown items ctx c next errs
  · intro fuel ctx items errs0 c es
    exact Cg.codegenLoop_nostall_no_unknown fuel ctx items errs0 c es
  · intro ast pc errs h
    unfold Cg.codegen at h
    dsimp only at h
    cases hL : Cg.codegenLoop (2 * (ast.map (fun t => (none, t))).length + 2)
        (Cg.CodegenContext.new pc) (ast.map (fun t => (none, t))) false [] with
    | none => rw [hL] at h; simp [Cg.resultErrors] at h
    | some r =>
      rw [hL] at h
      cases r with
      | error m => simp [Cg.resultErrors] at h
      | ok t =>
        rcases t with ⟨ctx', errs'⟩
        dsimp only at h
        by_cases he : errs' = []
        · rw [if_pos he] at h; simp [Cg.resultErrors] at h
        · rw [if_neg he] at h
          simp [Cg.resultErrors] at h
          rw [← h]
          exact he

/-- Witness for C4: the no-stall hypothesis and the loop equation are
discharged at a fresh context with an empty worklist. -/
theorem c4_unknown_identifier_gating_witness :
    Cg.NoStall (Cg.CodegenContext.new 49152) [] ∧
    Cg.codegenLoop 1 (Cg.CodegenContext.new 49152) [] false [] =
      some (.ok (Cg.CodegenContext.new 49152, [])) ∧
    (∀ er ∈ ([] : List Cg.CodegenError),
        er ∈ ([] : List Cg.CodegenError) ∨ er.isUnknownId = false) := by
  refine ⟨.nil _, rfl, ?_⟩
  exact c4_unknown_identifier_gating.2.2.2.1 1 (Cg.CodegenContext.new 49152)
    [] [] (Cg.CodegenContext.new 49152) [] (.nil _) rfl

/-- Claim C5.  The fixpoint loop terminates: (1) a pass never grows the
worklist, (2) a pass run with `error_on_failure = true` empties the
worklist (every remaining statement is either emitted or removed with
an error), (3) the loop halts within `2·n + 2` passes for a worklist of
size `n` (the fuel bound is never exhausted), and (4) `codegen` as a
whole always terminates. -/
theorem c5_fixpoint_terminates :
    (∀ (items : List Cg.WorkItem) (ctx : Cg.CodegenContext) (flag : Bool)
        (c : Cg.CodegenContext) (next : List Cg.WorkItem)
        (errs : List Cg.CodegenError),
        Cg.runPass ctx items flag = .ok (c, next, errs) →
        next.length ≤ items.length) ∧
    (∀ (items : List Cg.WorkItem) (ctx : Cg.CodegenContext)
        (c : Cg.CodegenContext) (next : List Cg.WorkItem)
        (errs : List Cg.CodegenError),
        Cg.runPass ctx items true = .ok (c, next, errs) → next = []) ∧
    (∀ (ctx : Cg.CodegenContext) (items : List Cg.WorkItem) (flag : Bool)
        (errs : List Cg.CodegenError),
        Cg.codegenLoop (2 * items.length + 2) ctx items flag errs ≠ none) ∧
    (∀ (ast : List Cg.Token) (pc : Nat), Cg.codegen ast pc ≠ none) := by
  refine ⟨?_, ?_, ?_, ?_⟩
  · intro items ctx flag c next errs
    exact Cg.runPass_length_le items ctx flag c next errs
  · intro items ctx c next errs
    exact Cg.runPass_true_next_nil items ctx c next errs
  · intro ctx items flag errs
    apply Cg.codegenLoop_fuel_sufficient
    cases flag <;> (simp; try omega)
  · intro ast pc h
    unfold Cg.codegen at h
    dsimp only at h
    cases hL : Cg.codegenLoop (2 * (ast.map (fun t => (none, t))).length + 2)
        (Cg.CodegenContext.new pc) (ast.map (fun t => (none, t))) false [] with
    | none =>
      refine Cg.codegenLoop_fuel_sufficient _ _ _ _ _ ?_ hL
      simp
      try omega
    | some r =>
      rw [hL] at h
      cases r with
      | error m => simp at h
      | ok t =>
        rcases t with ⟨ctx', errs'⟩
        dsimp only at h
        by_cases he : errs' = []
        · rw [if_pos he] at h; simp at h
        · rw [if_neg he] at h; simp at h

/-- Witness for C5: the pass-size bound applied to an empty worklist
(equation discharged by `rfl`) and termination of a concrete one-token
program. -/
theorem c5_fixpoint_terminates_witness :
    (([] : List Cg.WorkItem).length ≤ ([] : List Cg.WorkItem).length) ∧
    Cg.codegen [Cg.Token.other] 49152 ≠ none := by
  refine ⟨?_, ?_⟩
  · exact c5_fixpoint_terminates.1 [] (Cg.CodegenContext.new 49152) false
      (Cg.CodegenContext.new 49152) [] [] rfl
  · exact c5_fixpoint_terminates.2.2.2 [Cg.Token.other] 49152

/-- Claim C10 (amended).  `Segment::set`: when `pc + len(b) <= 65535`
the write succeeds, stores exactly the bytes of `b` at `pc..pc+len`,
leaves every other byte unchanged, advances the pc by `len(b)` and
widens the covered range to include both the written interval and the
previous range.  When `pc + len(b) > 65536` (for any in-range pc) the
write panics with an index-out-of-bounds error instead of wrapping
around to address 0.  (At the exact boundary `pc + len(b) = 65536` the
16-bit pc wraps to 0 and the range is not widened — see the
counterexample.) -/
theorem c10_segment_set_spec (seg : Cg.Segment) (bytes : List Nat) :
    (seg.pc + bytes.length ≤ 65535 →
      ∃ seg', seg.set bytes = .ok seg' ∧
        seg'.pc = seg.pc + bytes.length ∧
        (∀ i, i < bytes.length → seg'.data (seg.pc + i) = bytes.getD i 0) ∧
        (∀ j, j < seg.pc ∨ seg.pc + bytes.length ≤ j →
          seg'.data j = seg.data j) ∧
        (∃ a b, seg'.range = some (a, b) ∧ a ≤ seg.pc ∧
          seg.pc + bytes.length ≤ b ∧
          (∀ s e, seg.range = some (s, e) → a ≤ s ∧ e ≤ b))) ∧
    (seg.pc < 65536 → 65536 < seg.pc + bytes.length →
      seg.set bytes = .error "index out of bounds") := by
  constructor
  · intro hle
    obtain ⟨d', hw, hset, hkeep⟩ :=
      Cg.writeBytes_ok bytes seg.data seg.pc (by omega)
    unfold Cg.Segment.set
    dsimp only
    rw [hw]
    dsimp only
    have hmod : (seg.pc + bytes.length) % 65536 = seg.pc + bytes.length :=
      Nat.mod_eq_of_lt (by omega)
    rw [hmod]
    rcases hrange : seg.range with _ | ⟨s0, e0⟩ <;> dsimp only [Option.getD] <;>
      refine ⟨_, rfl, rfl, hset, hkeep, ?_⟩
    · split <;> rename_i h1 <;> split <;> rename_i h2
      all_goals
        refine ⟨_, _, rfl, by (try dsimp only at h1 h2 ⊢); omega,
          by (try dsimp only at h1 h2 ⊢); omega, ?_⟩
      all_goals (intro s e hse; cases hse)
    · split <;> rename_i h1 <;> split <;> rename_i h2
      all_goals
        refine ⟨_, _, rfl, by (try dsimp only at h1 h2 ⊢); omega,
          by (try dsimp only at h1 h2 ⊢); omega, ?_⟩
      all_goals
        (intro s e hse
         injection hse with hse
         have hs : s0 = s := congrArg Prod.fst hse
         have he : e0 = e := congrArg Prod.snd hse
         refine ⟨?_, ?_⟩ <;> (try dsimp only at h1 h2 ⊢) <;> omega)
  · intro hpc hbig
    unfold Cg.Segment.set
    dsimp only
    rw [Cg.writeBytes_oob bytes seg.data seg.pc (by omega) (by omega)]

/-- Witness for C10: writing two bytes at `0xFF00`. -/
theorem c10_segment_set_spec_witness :
    (0xFF00 + 2 ≤ 65535) ∧
    (∃ seg', (Cg.Segment.new 0xFF00).set [7, 8] = .ok seg' ∧
      seg'.pc = 0xFF00 + 2 ∧
      (∀ i, i < 2 → seg'.data (0xFF00 + i) = [7, 8].getD i 0) ∧
      (∀ j, j < 0xFF00 ∨ 0xFF00 + 2 ≤ j →
        seg'.data j = (Cg.Segment.new 0xFF00).data j) ∧
      (∃ a b, seg'.range = some (a, b) ∧ a ≤ 0xFF00 ∧ 0xFF00 + 2 ≤ b ∧
        (∀ s e, (Cg.Segment.new 0xFF00).range = some (s, e) →
          a ≤ s ∧ e ≤ b))) := by
  refine ⟨by decide, ?_⟩
  have h := (c10_segment_set_spec (Cg.Segment.new 0xFF00) [7, 8]).1 (by decide)
  obtain ⟨seg', h1, h2, h3, h4, h5⟩ := h
  exact ⟨seg', h1, h2, by intro i hi; exact h3 i (by simpa using hi),
    by intro j hj; exact h4 j (by simpa using hj), h5⟩

/-- For every branch mnemonic the opcode table has exactly one candidate
`(branch opcode, 1)` at `(AbsoluteOrZP, no suffix)`. -/
theorem possibleOpcodes_branch (m : Cg.Mnemonic) (h : Cg.isBranch m = true) :
    Cg.possibleOpcodes m .absoluteOrZP none = some [(Cg.branchOpcode m, 1)] := by
  cases m <;> simp [Cg.isBranch] at h <;> rfl

/-- Claim C2.  Branch instructions are PC-relative: with a known operand
value `target` at program counter `pc`, let `offset = target - (pc + 2)`.
If `offset ∈ [-128, 127]` the instruction is emitted as the branch opcode
followed by the two's-complement encoding of the offset (`offset + 256`
when negative) and the pc advances by 2; otherwise emission fails with
the `branch too far` diagnostic and the context is left unchanged. -/
theorem c2_branch_offset_encoding (ctx : Cg.CodegenContext)
    (pc target : Nat) (i : Cg.Instruction) (op : Cg.Operand) (flag : Bool)
    (hbr : Cg.isBranch i.mnemonic = true)
    (hop : i.operand = some op)
    (ham : op.addressingMode = Cg.AddressingMode.absoluteOrZP)
    (hsf : op.suffix = none)
    (hpc : ctx.seg.pc = pc)
    (hv : Cg.evaluate ctx flag op.expr = .ok (some target))
    (ht : target < 2 ^ 63)
    (hlim : pc + 2 ≤ 65535) :
    ∀ offset : Int, offset = (target : Int) - ((pc : Int) + 2) →
      ((-128 ≤ offset ∧ offset ≤ 127) →
        ∃ ctx' : Cg.CodegenContext,
          Cg.emitInstruction ctx none i flag = Cg.Step.ok ctx' none ∧
          ctx'.seg.data pc = Cg.branchOpcode i.mnemonic ∧
          ctx'.seg.data (pc + 1) =
            (if offset < 0 then offset + 256 else offset).toNat ∧
          ctx'.seg.pc = pc + 2) ∧
      ((offset < -128 ∨ 127 < offset) →
        Cg.emitInstruction ctx none i flag =
          Cg.Step.err ctx Cg.CodegenError.branchTooFar) := by
  subst hpc
  intro offset hoff
  have htpc : Cg.toI64 target = (target : Int) := Cg.toI64_eq_of_lt ht
  have hcpc : Cg.toI64 (ctx.seg.pc + 2) = ((ctx.seg.pc : Int) + 2) := by
    rw [Cg.toI64_eq_of_lt (by omega)]
    push_cast
    ring
  have hw : Cg.wrapI64 (Cg.toI64 target - Cg.toI64 (ctx.seg.pc + 2)) = offset := by
    rw [htpc, hcpc, ← hoff]
    exact Cg.wrapI64_eq_of_bounds (by omega) (by omega)
  constructor
  · intro hin
    have henc : (if offset < 0 then offset + 256 else offset).toNat < 256 := by
      split <;> omega
    have hEO : Cg.evaluateOperand ctx ctx.seg.pc i flag =
        .ok (op.addressingMode,
             some (if offset < 0 then offset + 256 else offset).toNat,
             op.suffix) := by
      unfold Cg.evaluateOperand
      rw [hop]
      dsimp only
      rw [hv]
      dsimp only
      rw [hbr, if_pos rfl]
      try dsimp only
      rw [hw, if_pos hin]
    unfold Cg.emitInstruction
    dsimp only
    rw [hEO]
    dsimp only
    rw [ham, hsf, possibleOpcodes_branch i.mnemonic hbr]
    dsimp only
    rw [hop]
    dsimp only [Cg.pickBytes]
    unfold Cg.pickOpcode
    rw [if_pos ⟨rfl, henc⟩]
    unfold Cg.Segment.set
    dsimp only
    unfold Cg.writeBytes
    rw [if_pos (show ctx.seg.pc < 65536 by omega)]
    unfold Cg.writeBytes
    rw [if_pos (show ctx.seg.pc + 1 < 65536 by omega)]
    unfold Cg.writeBytes
    dsimp only
    refine ⟨_, rfl, ?_, ?_, ?_⟩
    · dsimp only
      rw [if_neg (by omega), if_pos rfl]
    · dsimp only
      rw [if_pos rfl]
      exact Nat.mod_eq_of_lt henc
    · simp only [List.length_cons, List.length_nil]
      exact Nat.mod_eq_of_lt (by omega)
  · intro hout
    have hEO : Cg.evaluateOperand ctx ctx.seg.pc i flag =
        .err Cg.CodegenError.branchTooFar := by
      unfold Cg.evaluateOperand
      rw [hop]
      dsimp only
      rw [hv]
      dsimp only
      rw [hbr, if_pos rfl]
      try dsimp only
      rw [hw, if_neg (show ¬(-128 ≤ offset ∧ offset ≤ 127) by omega)]
    unfold Cg.emitInstruction
    try dsimp only
    rw [hEO]

theorem c2_branch_offset_encoding_witness :
    (Cg.isBranch Cg.Mnemonic.bne = true ∧ (-3 : Int) < 0) ∧
    (Cg.emitInstruction
        { seg := { data := fun _ => 0, range := none, pc := 0xc001 },
          symbols := fun _ => none }
        none
        { mnemonic := Cg.Mnemonic.bne,
          operand := some
            { addressingMode := Cg.AddressingMode.absoluteOrZP,
              expr := Cg.Expression.number 0xc000,
              suffix := none } }
        false).dataAt 0xc001 = some 0xd0 ∧
    (Cg.emitInstruction
        { seg := { data := fun _ => 0, range := none, pc := 0xc001 },
          symbols := fun _ => none }
        none
        { mnemonic := Cg.Mnemonic.bne,
          operand := some
            { addressingMode := Cg.AddressingMode.absoluteOrZP,
              expr := Cg.Expression.number 0xc000,
              suffix := none } }
        false).dataAt 0xc002 = some 0xfd := by
  refine ⟨⟨rfl, by decide⟩, ?_⟩
  obtain ⟨ctx', hok, h1, h2, h3⟩ :=
    (c2_branch_offset_encoding
      { seg := { data := fun _ => 0, range := none, pc := 0xc001 },
        symbols := fun _ => none }
      0xc001 0xc000
      { mnemonic := Cg.Mnemonic.bne,
        operand := some
          { addressingMode := Cg.AddressingMode.absoluteOrZP,
            expr := Cg.Expression.number 0xc000,
            suffix := none } }
      { addressingMode := Cg.AddressingMode.absoluteOrZP,
        expr := Cg.Expression.number 0xc000,
        suffix := none }
      false rfl rfl rfl rfl rfl rfl (by decide) (by decide)
      (-3) (by decide)).1 (by decide)
  rw [hok]
  unfold Cg.Step.dataAt
  dsimp only
  have h2' : ctx'.seg.data 49154 = 253 := by
    rw [show (49154 : Nat) = 49153 + 1 from rfl, h2]
    rfl
  rw [h1, h2']
  exact ⟨rfl, rfl⟩

/-- Claim C3, counterexample.  The claim asserts that a later pass
overwrites the placeholder in place *without changing the instruction's
size*.  For `lda foo` with `foo` a forward reference, the first pass
emits the absolute-sized placeholder `AD 00 00` (3 bytes, pc advances
`0xc000 → 0xc003`) and re-queues the statement at `0xc000`; but when
`foo` resolves to the zero-page value 16, the opcode-selection loop
picks the 1-byte-operand candidate (`A5 10`, 2 bytes), so the re-emitted
instruction is *smaller* than its placeholder: the final pc is `0xc002`,
not `0xc003`, and the stale third placeholder byte is left behind. -/
theorem c3_zero_page_resolution_shrinks :
    Cg.Step.requeueOf (Cg.emitToken (Cg.CodegenContext.new 0xc000) none
        (.instruction ⟨.lda, some ⟨.absoluteOrZP, .identifierValue "foo" none,
          none⟩⟩) false) = some (some 0xc000) ∧
    Cg.Step.pcOf (Cg.emitToken (Cg.CodegenContext.new 0xc000) none
        (.instruction ⟨.lda, some ⟨.absoluteOrZP, .identifierValue "foo" none,
          none⟩⟩) false) = some 0xc003 ∧
    Cg.Step.dataAt (Cg.emitToken (Cg.CodegenContext.new 0xc000) none
        (.instruction ⟨.lda, some ⟨.absoluteOrZP, .identifierValue "foo" none,
          none⟩⟩) false) 0xc000 = some 0xad ∧
    Cg.resultDataAt (Cg.codegen
        [.instruction ⟨.lda, some ⟨.absoluteOrZP, .identifierValue "foo" none,
           none⟩⟩,
         .variableDefinition "foo" (.number 16) .const] 0xc000) 0xc000 =
      some 0xa5 ∧
    Cg.resultDataAt (Cg.codegen
        [.instruction ⟨.lda, some ⟨.absoluteOrZP, .identifierValue "foo" none,
           none⟩⟩,
         .variableDefinition "foo" (.number 16) .const] 0xc000) 0xc001 =
      some 16 ∧
    Cg.resultPc (Cg.codegen
        [.instruction ⟨.lda, some ⟨.absoluteOrZP, .identifierValue "foo" none,
           none⟩⟩,
         .variableDefinition "foo" (.number 16) .const] 0xc000) =
      some 0xc002 := by
  refine ⟨rfl, rfl, rfl, rfl, rfl, rfl⟩

/-- Claim C3 (amended).  When the operand expression of an instruction
in the opcode table cannot yet be evaluated, `emit_instruction` (i) picks
the candidate with the largest operand byte count, (ii) writes its opcode
followed by that many placeholder zero bytes, advancing the pc over them,
(iii) re-queues the statement with the pc at which the bytes were
emitted, and (iv) a retry pc makes a later pass reposition the segment
to that pc before re-emitting.  (The original claim's final clause —
that the later pass never changes the instruction's size — is false,
see the counterexample.) -/
theorem c3_unknown_operand_placeholder (ctx : Cg.CodegenContext)
    (i : Cg.Instruction) (op : Cg.Operand) (flag : Bool)
    (cands : List (Nat × Nat)) (opc len : Nat)
    (hop : i.operand = some op)
    (hv : Cg.evaluate ctx flag op.expr = .ok none)
    (hcands : Cg.possibleOpcodes i.mnemonic op.addressingMode op.suffix =
      some cands)
    (hml : Cg.maxByLen cands = some (opc, len))
    (hlen : len = 1 ∨ len = 2)
    (hlim : ctx.seg.pc + (len + 1) ≤ 65535) :
    (∀ c ∈ cands, c.2 ≤ len) ∧
    (∀ pc, Cg.emitInstruction ctx (some pc) i flag =
      Cg.emitInstruction { ctx with seg := ctx.seg.setCurrentPc pc } none i
        flag) ∧
    ∃ ctx' : Cg.CodegenContext,
      Cg.emitInstruction ctx none i flag =
        Cg.Step.ok ctx' (some ctx.seg.pc) ∧
      ctx'.seg.data ctx.seg.pc = opc ∧
      (∀ k, 1 ≤ k → k ≤ len → ctx'.seg.data (ctx.seg.pc + k) = 0) ∧
      ctx'.seg.pc = ctx.seg.pc + (len + 1) := by
  have hml' : Cg.maxByLenAux none cands = some (opc, len) := hml
  obtain ⟨-, hmax, -⟩ := Cg.maxByLenAux_spec cands none (opc, len) hml'
  refine ⟨hmax, fun pc => rfl, ?_⟩
  have hEO : Cg.evaluateOperand ctx ctx.seg.pc i flag =
      .ok (op.addressingMode, none, op.suffix) := by
    unfold Cg.evaluateOperand
    rw [hop]
    dsimp only
    rw [hv]
  rcases hlen with rfl | rfl
  · unfold Cg.emitInstruction
    dsimp only
    rw [hEO]
    dsimp only
    rw [hcands]
    dsimp only
    rw [hop]
    dsimp only [Cg.pickBytes]
    rw [hml]
    dsimp only
    unfold Cg.Segment.set
    dsimp only
    unfold Cg.writeBytes
    rw [if_pos (show ctx.seg.pc < 65536 by omega)]
    unfold Cg.writeBytes
    rw [if_pos (show ctx.seg.pc + 1 < 65536 by omega)]
    unfold Cg.writeBytes
    dsimp only
    refine ⟨_, rfl, ?_, ?_, ?_⟩
    · dsimp only
      rw [if_neg (by omega), if_pos rfl]
    · intro k hk1 hk2
      have hk : k = 1 := by omega
      subst hk
      dsimp only
      rw [if_pos rfl]
    · simp only [List.length_cons, List.length_nil]
      omega
  · unfold Cg.emitInstruction
    dsimp only
    rw [hEO]
    dsimp only
    rw [hcands]
    dsimp only
    rw [hop]
    dsimp only [Cg.pickBytes]
    rw [hml]
    dsimp only
    unfold Cg.Segment.set
    dsimp only
    unfold Cg.writeBytes
    rw [if_pos (show ctx.seg.pc < 65536 by omega)]
    unfold Cg.writeBytes
    rw [if_pos (show ctx.seg.pc + 1 < 65536 by omega)]
    unfold Cg.writeBytes
    rw [if_pos (show ctx.seg.pc + 1 + 1 < 65536 by omega)]
    unfold Cg.writeBytes
    dsimp only
    refine ⟨_, rfl, ?_, ?_, ?_⟩
    · dsimp only
      rw [if_neg (by omega), if_neg (by omega), if_pos rfl]
    · intro k hk1 hk2
      have hk : k = 1 ∨ k = 2 := by omega
      rcases hk with rfl | rfl
      · dsimp only
        rw [if_neg (by omega), if_pos rfl]
      · dsimp only
        rw [if_pos (by omega)]
    · simp only [List.length_cons, List.length_nil]
      omega

theorem c3_unknown_operand_placeholder_witness :
    ∃ ctx' : Cg.CodegenContext,
      Cg.emitInstruction (Cg.CodegenContext.new 0xc000) none
          ⟨.lda, some ⟨.absoluteOrZP, .identifierValue "foo" none, none⟩⟩
          false =
        Cg.Step.ok ctx' (some 0xc000) ∧
      ctx'.seg.data 0xc000 = 0xad ∧
      ctx'.seg.data 0xc001 = 0 ∧
      ctx'.seg.data 0xc002 = 0 ∧
      ctx'.seg.pc = 0xc003 := by
  obtain ⟨-, -, ctx', hok, hd0, hdk, hpc⟩ :=
    c3_unknown_operand_placeholder (Cg.CodegenContext.new 0xc000)
      ⟨.lda, some ⟨.absoluteOrZP, .identifierValue "foo" none, none⟩⟩
      ⟨.absoluteOrZP, .identifierValue "foo" none, none⟩
      false [(0xa5, 1), (0xad, 2)] 0xad 2
      rfl rfl rfl rfl (Or.inr rfl) (by decide)
  refine ⟨ctx', hok, hd0, ?_, ?_, hpc⟩
  · exact hdk 1 (by decide) (by decide)
  · exact hdk 2 (by decide) (by decide)

/-- Claim C7, counterexample.  The claim asserts that parsing any source
and reserializing it with the passthrough options reproduces the input
byte-for-byte.  It does not: (i) the passthrough options set the
mnemonic casing to `Lowercase`, so the source `NOP` (mnemonics are
case-insensitive, and the tree stores only the mnemonic, not its
spelling) reserializes as lowercase; (ii) the `Eof` arm of
`format_token` replaces the token payload by `"\n"` unconditionally, so
one line feed is always appended — `NOP` comes back as the distinct
string `nop` + newline, and even the already-lowercase,
newline-terminated `nop` + newline comes back with a second newline. -/
theorem c7_passthrough_not_roundtrip :
    Fm.format
        [.instruction ⟨⟨none, .nop⟩, none⟩, .eof ⟨none, ()⟩]
        .passthrough = "nop\n" ∧
    "nop\n" ≠ "NOP" ∧
    Fm.format
        [.instruction ⟨⟨none, .nop⟩, none⟩, .eof ⟨some [.newLine], ()⟩]
        .passthrough = "nop\n\n" ∧
    "nop\n\n" ≠ "nop\n" := by
  refine ⟨rfl, by decide, rfl, by decide⟩

/-- Claim C7 (amended).  With the passthrough options, reserializing the
parse tree of a one-instruction source reproduces the input with the
mnemonic's case normalized to lowercase and exactly one line feed
appended for the `Eof` token: for every mnemonic `m`, the tree of the
bare source (no trailing newline) prints as the lowercased mnemonic plus
one newline, the tree of the newline-terminated source prints with that
newline preserved and one more appended, and an immediate operand (here
`#123`) is reproduced verbatim after the mnemonic. -/
theorem c7_passthrough_lowercases_and_appends_newline (m : Cg.Mnemonic) :
    Fm.format
        [.instruction ⟨⟨none, m⟩, none⟩, .eof ⟨none, ()⟩]
        .passthrough =
      Fm.Casing.lowercase.format (Fm.mnemonicDisplay m) ++ "\n" ∧
    Fm.format
        [.instruction ⟨⟨none, m⟩, none⟩, .eof ⟨some [.newLine], ()⟩]
        .passthrough =
      Fm.Casing.lowercase.format (Fm.mnemonicDisplay m) ++ "\n\n" ∧
    Fm.format
        [.instruction ⟨⟨none, m⟩,
           some { addressingMode := .immediate,
                  lchar := some ⟨none, "#"⟩,
                  rchar := none,
                  expr := ⟨none,
                    { tagNot := none, tagNeg := none,
                      factor := ⟨none, .number ⟨none, ""⟩ ⟨none, "123"⟩⟩ }⟩,
                  suffix := none }⟩,
         .eof ⟨none, ()⟩]
        .passthrough =
      Fm.Casing.lowercase.format (Fm.mnemonicDisplay m) ++ " #123" ++ "\n" := by
  cases m <;> exact ⟨rfl, rfl, rfl⟩
